import Mathlib

/-!
Verification of the crop-generator module
(src/apps/blender/resources/images/entrypoints/scripts/verifier_tools/crop_generator.py).

The Python source computes with IEEE-754 binary64 ("Python float") numbers and
selectively with binary32 ("numpy.float32") numbers.  Both formats are modelled
exactly over the rationals: a finite floating-point value is the rational it
denotes, and each arithmetic operation rounds its exact rational result to the
target format with round-to-nearest, ties-to-even.  An operation whose result
overflows the format (IEEE infinity; in Python this surfaces either as `inf`
or as an `OverflowError` at the following conversion) is modelled as `none`
and propagated.

Rational arithmetic is expressed through `Rat.divInt`-based helpers (`qadd`,
`qsub`, `qmul`, `qdiv`, ...) rather than the `+ * - /` instances, because the
latter are `irreducible` in the standard library and would block evaluation of
the model inside `decide` proofs; the helpers are proved equal to the standard
operations below and all reasoning happens through that bridge.
-/

set_option maxRecDepth 100000

namespace CropGen

/-- Kernel-evaluable rational addition (equal to `+`, see `qadd_eq`). -/
def qadd (a b : ℚ) : ℚ := Rat.divInt (a.num * b.den + b.num * a.den) (a.den * b.den)

/-- Kernel-evaluable rational negation (equal to `-·`, see `qneg_eq`). -/
def qneg (a : ℚ) : ℚ := Rat.divInt (-a.num) a.den

/-- Kernel-evaluable rational subtraction (equal to `-`, see `qsub_eq`). -/
def qsub (a b : ℚ) : ℚ := qadd a (qneg b)

/-- Kernel-evaluable rational multiplication (equal to `*`, see `qmul_eq`). -/
def qmul (a b : ℚ) : ℚ := Rat.divInt (a.num * b.num) (a.den * b.den)

/-- Kernel-evaluable rational division (equal to `/`, see `qdiv_eq`). -/
def qdiv (a b : ℚ) : ℚ := Rat.divInt (a.num * b.den) (a.den * b.num)

/-- Kernel-evaluable absolute value (equal to `|·|`, see `qabs_eq`). -/
def qabs (a : ℚ) : ℚ := if a < 0 then qneg a else a

/-- Kernel-evaluable integer power of two in `ℚ`
(equal to `(2 : ℚ) ^ (z : ℤ)`, see `pow2_eq`). -/
def pow2 (z : ℤ) : ℚ :=
  if 0 ≤ z then ((2 ^ z.toNat : ℕ) : ℚ) else Rat.divInt 1 (2 ^ (-z).toNat : ℕ)

/-- Fuel-driven base-2 logarithm on naturals: for `1 ≤ n < 2 ^ (fuel + 1)` it
returns the floor of the base-2 logarithm of `n`.  The fuel decreases
structurally while `n` halves, so the recursion depth stays logarithmic
whatever fuel literal is supplied. -/
def nlog2 : ℕ → ℕ → ℕ
  | 0, _ => 0
  | f+1, n => if n ≤ 1 then 0 else nlog2 f (n / 2) + 1

/-- Base-2 logarithm of a positive natural, with self-sufficient fuel. -/
def natLog2 (n : ℕ) : ℕ := nlog2 n n

/-- Binade exponent of a nonzero rational: the unique `e` with
`2 ^ e ≤ |q| < 2 ^ (e + 1)`. -/
def qexp (q : ℚ) : ℤ :=
  let d : ℤ := (natLog2 q.num.natAbs : ℤ) - (natLog2 q.den : ℤ)
  if pow2 d ≤ qabs q then d else d - 1

/-- Round a rational to the nearest integer, ties to even
(the rounding used both by IEEE-754 and by Python's `round`). -/
def rnEven (q : ℚ) : ℤ :=
  let n := Rat.floor q
  let f := qsub q (n : ℚ)
  if f < Rat.divInt 1 2 then n
  else if Rat.divInt 1 2 < f then n + 1
  else if n % 2 = 0 then n else n + 1

/-- Round a rational to a binary floating-point format with `prec` bits of
precision and exponent range `[emin, emax]`, round-to-nearest ties-to-even;
`none` models overflow to infinity. -/
def roundFl (prec : ℕ) (emin emax : ℤ) (q : ℚ) : Option ℚ :=
  if q = 0 then some 0
  else
    let e0 := qexp q
    let e : ℤ := if e0 < emin then emin else e0
    let u : ℚ := pow2 (e - prec + 1)
    let v : ℚ := qmul ((rnEven (qdiv (qabs q) u) : ℤ) : ℚ) u
    if pow2 (emax + 1) ≤ v then none
    else some (if q < 0 then qneg v else v)

/-- IEEE binary64, the format of a Python `float`. -/
def roundF64 (q : ℚ) : Option ℚ := roundFl 53 (-1022) 1023 q

/-- IEEE binary32, the format of `numpy.float32`. -/
def roundF32 (q : ℚ) : Option ℚ := roundFl 24 (-126) 127 q

/-- The binary64 value denoted by a (finite, in-range) decimal literal of the
Python source. -/
def pyFloat (q : ℚ) : ℚ := (roundF64 q).getD 0

/-- Python float addition. -/
def fadd64 (x y : ℚ) : Option ℚ := roundF64 (qadd x y)

/-- Python float subtraction. -/
def fsub64 (x y : ℚ) : Option ℚ := roundF64 (qsub x y)

/-- Python float multiplication. -/
def fmul64 (x y : ℚ) : Option ℚ := roundF64 (qmul x y)

/-- Python true division. -/
def fdiv64 (x y : ℚ) : Option ℚ := roundF64 (qdiv x y)

/-- Conversion of a Python int to float (raises `OverflowError` when out of
range, modelled as `none`). -/
def int2f64 (n : ℤ) : Option ℚ := roundF64 (n : ℚ)

/-- `numpy.float32` applied to a Python float. -/
def npF32 (q : ℚ) : Option ℚ := roundF32 q

/-- `numpy.float32` applied to a Python int: CPython converts to binary64
first, numpy then narrows to binary32. -/
def npF32int (n : ℕ) : Option ℚ := (int2f64 n).bind npF32

/-- Product of two `numpy.float32` values (binary32 multiplication). -/
def mulF32 (a b : Option ℚ) : Option ℚ := do roundF32 (qmul (← a) (← b))

/-- Python `round(x)` on a float: nearest integer, ties to even. -/
def pyRoundInt (q : ℚ) : ℤ := rnEven q

/-- Python `round(x, 2)` on a float: the float nearest to the 2-decimal-digit
rounding of the exact value of `x` (CPython rounds the decimal expansion
correctly). -/
def pyRound2 (q : ℚ) : ℚ := pyFloat (qdiv ((rnEven (qmul q 100) : ℤ) : ℚ) 100)

/-- Module constant `CROP_RELATIVE_SIZE = 0.1` (as a binary64 value). -/
def CROP_RELATIVE_SIZE : ℚ := pyFloat (Rat.divInt 1 10)

/-- Module constant `MIN_CROP_SIZE = 8`. -/
def MIN_CROP_SIZE : ℚ := 8

/-- Class constant `NewCrop.STEP_SIZE = 0.01` (as a binary64 value). -/
def STEP_SIZE : ℚ := pyFloat (Rat.divInt 1 100)

/-- Source class `FloatingPointBox`: an image region in normalized
floating-point coordinates. -/
structure FloatingPointBox where
  left : ℚ
  top : ℚ
  right : ℚ
  bottom : ℚ
deriving DecidableEq

/-- `FloatingPointBox.__contains__`: component-wise inclusive containment of
`item` in `self`. -/
def FloatingPointBox.contains (self item : FloatingPointBox) : Bool :=
  decide (item.left ≥ self.left) && decide (item.right ≤ self.right) &&
  decide (item.top ≥ self.top) && decide (item.bottom ≤ self.bottom)

/-- Source class `PixelRegion`: the same region in integer pixel coordinates. -/
structure PixelRegion where
  left : ℤ
  top : ℤ
  right : ℤ
  bottom : ℤ
deriving DecidableEq

/-- The `resolution` list `[width, height]` of the source. -/
structure Resolution where
  width : ℕ
  height : ℕ
deriving DecidableEq

/-- Source class `SubImage`. -/
structure SubImage where
  region : FloatingPointBox
  resolution : Resolution
deriving DecidableEq

/-- Python exceptions reachable in the modelled code: `OverflowError` from
float conversions and from `math.floor`/`round` on infinities, the
`ValueError` raised by `random.randint` on an empty range (the spec's
`InvalidRegionError`), and the `ValueError` raised by
`NewCrop._validate_crop_is_within_subtask` (the spec's
`CropNotContainedError`). -/
inductive PyErr where
  | overflow
  | emptyRange
  | cropNotContained
deriving DecidableEq

/-- Lift an optional (possibly overflowed) float into the exception monad. -/
def toE (o : Option ℚ) : Except PyErr ℚ :=
  match o with
  | some v => Except.ok v
  | none => Except.error PyErr.overflow

/-- One `while relative_crop_size * axis < MIN_CROP_SIZE:
relative_crop_size += 0.01` loop of `NewCrop._get_relative_crop_size`
(and, identically, of `Crop._get_random_float_region`), with fuel.
The sum `r + STEP_SIZE` stays far below the binary64 overflow threshold on
every reachable iterate, so the `getD` never takes its default. -/
def relLoop : ℕ → ℚ → ℚ → ℚ
  | 0, _, r => r
  | f+1, nf, r =>
      match fmul64 r nf with
      | some p => if p < MIN_CROP_SIZE then relLoop f nf ((fadd64 r STEP_SIZE).getD 0) else r
      | none => r

/-- `NewCrop._get_relative_crop_size`: per-axis minimum relative crop size.
The int-to-float conversion of each axis length can raise `OverflowError`. -/
def get_relative_crop_size (res : Resolution) : Except PyErr (ℚ × ℚ) := do
  let wf ← toE (int2f64 (res.width : ℤ))
  let hf ← toE (int2f64 (res.height : ℤ))
  pure (relLoop 1000 wf CROP_RELATIVE_SIZE, relLoop 1000 hf CROP_RELATIVE_SIZE)

/-- The two integer arguments the source passes to `random.randint` in
`NewCrop._get_coordinate_limits`: `round(lower_border * 100)` and
`round((upper_border - span) * 100)`. -/
def randint_bounds (lower upper span : ℚ) : ℤ × ℤ :=
  (pyRoundInt ((fmul64 lower 100).getD 0),
   pyRoundInt ((fmul64 ((fsub64 upper span).getD 0) 100).getD 0))

/-- `NewCrop._get_coordinate_limits` with the `random.randint` draw `d`
injected: returns `(beginning, end)` for one axis.  `random.randint(a, b)`
raises `ValueError` when `a > b`, before drawing. -/
def get_coordinate_limits (lower upper span : ℚ) (d : ℤ) :
    Except PyErr (ℚ × ℚ) := do
  let t1 ← toE (fsub64 upper span)
  let t2 ← toE (fmul64 t1 100)
  let lim := pyRoundInt t2
  let lo3 ← toE (fmul64 lower 100)
  let lo := pyRoundInt lo3
  if lim < lo then Except.error PyErr.emptyRange
  else do
    let beginning ← toE (fdiv64 (d : ℚ) 100)
    let s ← toE (fadd64 beginning span)
    pure (beginning, pyRound2 s)

/-- `NewCrop._generate_random_crop_box` with the two `randint` draws `dx`,
`dy` injected. -/
def generate_random_crop_box (res : Resolution) (sub : FloatingPointBox)
    (dx dy : ℤ) : Except PyErr FloatingPointBox := do
  let sizes ← get_relative_crop_size res
  let xs ← get_coordinate_limits sub.left sub.right sizes.1 dx
  let ys ← get_coordinate_limits sub.top sub.bottom sizes.2 dy
  pure ⟨xs.1, ys.1, xs.2, ys.2⟩

/-- Source class `NewCrop` after a successful `__init__`. -/
structure NewCrop where
  id : ℤ
  resolution : Resolution
  subtask_box : FloatingPointBox
  box : FloatingPointBox
deriving DecidableEq

/-- `NewCrop.__init__` with the random draws injected: uses the supplied
`crop_box` when one is given (a `FloatingPointBox` instance is always truthy,
so `crop_box or ...` generates only for `None`), then runs
`_validate_crop_is_within_subtask`. -/
def mkNewCrop (id : ℤ) (res : Resolution) (sub : FloatingPointBox)
    (cropBox : Option FloatingPointBox) (dx dy : ℤ) :
    Except PyErr NewCrop := do
  let box ← match cropBox with
    | some b => pure b
    | none => generate_random_crop_box res sub dx dy
  if sub.contains box then pure ⟨id, res, sub, box⟩
  else Except.error PyErr.cropNotContained

/-- `math.floor` on a float (raises `OverflowError` on infinity). -/
def floorE (o : Option ℚ) : Except PyErr ℤ :=
  match o with
  | some v => Except.ok (Rat.floor v)
  | none => Except.error PyErr.overflow

/-- `NewCrop._get_x_coordinates_as_pixels`. -/
def NewCrop.get_x_coordinates_as_pixels (c : NewCrop) :
    Except PyErr (ℤ × ℤ) := do
  let a ← floorE (mulF32 (npF32int c.resolution.width) (npF32 c.box.left))
  let b ← floorE (mulF32 (npF32 c.subtask_box.left) (npF32int c.resolution.width))
  let m ← floorE (mulF32 (npF32int c.resolution.width) (npF32 c.box.right))
  pure (a - b, m)

/-- `NewCrop._get_y_coordinates_as_pixels`. -/
def NewCrop.get_y_coordinates_as_pixels (c : NewCrop) :
    Except PyErr (ℤ × ℤ) := do
  let a ← floorE (mulF32 (npF32 c.subtask_box.bottom) (npF32int c.resolution.height))
  let b ← floorE (mulF32 (npF32int c.resolution.height) (npF32 c.box.bottom))
  let a2 ← floorE (mulF32 (npF32 c.subtask_box.bottom) (npF32int c.resolution.height))
  let b2 ← floorE (mulF32 (npF32int c.resolution.height) (npF32 c.box.top))
  pure (a - b, a2 - b2)

/-- `NewCrop._calculate_crop_region_to_pixel_region`. -/
def NewCrop.calculate_crop_region_to_pixel_region (c : NewCrop) :
    Except PyErr PixelRegion := do
  let x1 ← floorE (mulF32 (npF32int c.resolution.width) (npF32 c.box.left))
  let x1' ← floorE (mulF32 (npF32 c.subtask_box.left) (npF32int c.resolution.width))
  let xmax ← floorE (mulF32 (npF32int c.resolution.width) (npF32 c.box.right))
  let ya ← floorE (mulF32 (npF32 c.subtask_box.bottom) (npF32int c.resolution.height))
  let yb ← floorE (mulF32 (npF32int c.resolution.height) (npF32 c.box.bottom))
  let yc ← floorE (mulF32 (npF32 c.subtask_box.bottom) (npF32int c.resolution.height))
  let yd ← floorE (mulF32 (npF32int c.resolution.height) (npF32 c.box.top))
  pure ⟨x1 - x1', ya - yb, xmax, yc - yd⟩

/-- `Crop._get_random_float_region` (the older duplicate implementation),
with its two inline minimum-size loops and the two `randint` draws injected. -/
def Crop.get_random_float_region (subimage : SubImage) (dx dy : ℤ) :
    Except PyErr FloatingPointBox := do
  let wf ← toE (int2f64 (subimage.resolution.width : ℤ))
  let hf ← toE (int2f64 (subimage.resolution.height : ℤ))
  let relX := relLoop 1000 wf (pyFloat (Rat.divInt 1 10))
  let relY := relLoop 1000 hf (pyFloat (Rat.divInt 1 10))
  let xmaxB := subimage.region.right
  let xminB := subimage.region.left
  let ymaxB := subimage.region.bottom
  let yminB := subimage.region.top
  let tx1 ← toE (fsub64 xmaxB relX)
  let tx2 ← toE (fmul64 tx1 100)
  let xdiff := pyRoundInt tx2
  let tx3 ← toE (fmul64 xminB 100)
  let xlo := pyRoundInt tx3
  if xdiff < xlo then Except.error PyErr.emptyRange
  else do
    let xmin ← toE (fdiv64 (dx : ℚ) 100)
    let sx ← toE (fadd64 xmin relX)
    let xmax := pyRound2 sx
    let ty1 ← toE (fsub64 ymaxB relY)
    let ty2 ← toE (fmul64 ty1 100)
    let ydiff := pyRoundInt ty2
    let ty3 ← toE (fmul64 yminB 100)
    let ylo := pyRoundInt ty3
    if ydiff < ylo then Except.error PyErr.emptyRange
    else do
      let ymin ← toE (fdiv64 (dy : ℚ) 100)
      let sy ← toE (fadd64 ymin relY)
      let ymax := pyRound2 sy
      pure ⟨xmin, ymin, xmax, ymax⟩

/-- `Crop._calculate_crop_region_to_pixel_region` (the older duplicate
implementation), as a function of the subimage and the crop region. -/
def Crop.calculate_crop_region_to_pixel_region (subimage : SubImage)
    (crop_region : FloatingPointBox) : Except PyErr PixelRegion := do
  let x1 ← floorE (mulF32 (npF32int subimage.resolution.width) (npF32 crop_region.left))
  let x1' ← floorE (mulF32 (npF32 subimage.region.left) (npF32int subimage.resolution.width))
  let xmax ← floorE (mulF32 (npF32int subimage.resolution.width) (npF32 crop_region.right))
  let ya ← floorE (mulF32 (npF32 subimage.region.bottom) (npF32int subimage.resolution.height))
  let yb ← floorE (mulF32 (npF32int subimage.resolution.height) (npF32 crop_region.bottom))
  let yc ← floorE (mulF32 (npF32 subimage.region.bottom) (npF32int subimage.resolution.height))
  let yd ← floorE (mulF32 (npF32int subimage.resolution.height) (npF32 crop_region.top))
  pure ⟨x1 - x1', ya - yb, xmax, yc - yd⟩

/-- The claim's stated conversion formulas for the x axis, with every product
taken in 32-bit floating point and `width` as written (left operand):
`pixel_left = floor(width * crop.left) - floor(width * subtask.left)`,
`pixel_right = floor(width * crop.right)`. -/
def spec_pixel_x (res : Resolution) (crop sub : FloatingPointBox) :
    Except PyErr (ℤ × ℤ) := do
  let a ← floorE (mulF32 (npF32int res.width) (npF32 crop.left))
  let b ← floorE (mulF32 (npF32int res.width) (npF32 sub.left))
  let m ← floorE (mulF32 (npF32int res.width) (npF32 crop.right))
  pure (a - b, m)

/-- The claim's stated conversion formulas for the y axis:
`pixel_top = floor(height * subtask.bottom) - floor(height * crop.bottom)`,
`pixel_bottom = floor(height * subtask.bottom) - floor(height * crop.top)`. -/
def spec_pixel_y (res : Resolution) (crop sub : FloatingPointBox) :
    Except PyErr (ℤ × ℤ) := do
  let a ← floorE (mulF32 (npF32int res.height) (npF32 sub.bottom))
  let b ← floorE (mulF32 (npF32int res.height) (npF32 crop.bottom))
  let a2 ← floorE (mulF32 (npF32int res.height) (npF32 sub.bottom))
  let b2 ← floorE (mulF32 (npF32int res.height) (npF32 crop.top))
  pure (a - b, a2 - b2)

/-- Modelled from the spec: the hypothetical variant of
`_calculate_crop_region_to_pixel_region` that performs every multiplication in
full 64-bit floating-point precision instead of the reduced 32-bit precision
(claim C3 compares the implemented conversion against this variant). -/
def calculate_full_precision (c : NewCrop) : Except PyErr PixelRegion := do
  let x1 ← floorE ((int2f64 c.resolution.width).bind (fun w => fmul64 w c.box.left))
  let x1' ← floorE ((int2f64 c.resolution.width).bind (fun w => fmul64 c.subtask_box.left w))
  let xmax ← floorE ((int2f64 c.resolution.width).bind (fun w => fmul64 w c.box.right))
  let ya ← floorE ((int2f64 c.resolution.height).bind (fun h => fmul64 c.subtask_box.bottom h))
  let yb ← floorE ((int2f64 c.resolution.height).bind (fun h => fmul64 h c.box.bottom))
  let yc ← floorE ((int2f64 c.resolution.height).bind (fun h => fmul64 c.subtask_box.bottom h))
  let yd ← floorE ((int2f64 c.resolution.height).bind (fun h => fmul64 h c.box.top))
  pure ⟨x1 - x1', ya - yb, xmax, yc - yd⟩

/-- The concrete inputs of claim C2. -/
def cropC2 : NewCrop :=
  ⟨1, ⟨1920, 1080⟩, ⟨0, 0, 1, 1⟩,
   ⟨pyFloat (Rat.divInt 1 10), pyFloat (Rat.divInt 1 10),
    pyFloat (Rat.divInt 2 10), pyFloat (Rat.divInt 2 10)⟩⟩

/-- The concrete inputs of claim C3: resolution width 100 and a crop box with
right edge 0.29 (the float32 product 100 * 0.29 rounds up across the integer
29 while the float64 product stays below it). -/
def cropC3 : NewCrop :=
  ⟨1, ⟨100, 100⟩, ⟨0, 0, 1, 1⟩,
   ⟨pyFloat (Rat.divInt 21 100), pyFloat (Rat.divInt 1 10),
    pyFloat (Rat.divInt 29 100), pyFloat (Rat.divInt 2 10)⟩⟩

/-- The sequence of values taken by `relative_crop_size` in the source's
minimum-size loop: `relAccum k` is `0.1` followed by `k` binary64 additions
of `0.01`. -/
def relAccum : ℕ → ℚ
  | 0 => CROP_RELATIVE_SIZE
  | k+1 => (fadd64 (relAccum k) STEP_SIZE).getD 0

/-- The continuation condition of the source's minimum-size loop at iterate
`j` for (already converted) axis length `nf`. -/
def contLoop (nf : ℚ) (j : ℕ) : Bool :=
  match fmul64 (relAccum j) nf with
  | some p => decide (p < MIN_CROP_SIZE)
  | none => false

/-- Exact-arithmetic minimal step count: the least `k` with
`(0.10 + k * 0.01) * n ≥ 8`, as plain natural arithmetic. -/
def kmin (n : ℕ) : ℕ := (800 + n - 1) / n - 10

/-- The loop index at which the source's minimum-size loop actually stops for
axis length `n`: it exceeds the exact-arithmetic minimum by one for
`n ∈ {1, 2}` (the accumulated float falls just short of the grid value at
k = 790 and k = 390) and equals it everywhere else. -/
def stopIdx (n : ℕ) : ℕ := if n = 1 then 791 else if n = 2 then 391 else kmin n

/-- `accFrom r b`: `b` further binary64 `+= 0.01` steps of the minimum-size
loop starting from the value `r`.  Together with `relAccum_add` this lets deep
iterates of `relAccum` be evaluated in bounded segments. -/
def accFrom (r : ℚ) : ℕ → ℚ
  | 0 => r
  | j+1 => (fadd64 (accFrom r j) STEP_SIZE).getD 0

/-- The exact-arithmetic minimality property the spec asserts of the resolver:
`k` is the least index with `(0.10 + k * 0.01) * n ≥ 8`, i.e. with
`(10 + k) * n ≥ 800` over the integers. -/
def isMinIdx (n k : ℕ) : Prop :=
  800 ≤ (10 + k) * n ∧ ∀ j, j < k → (10 + j) * n < 800

instance (n k : ℕ) : Decidable (isMinIdx n k) := by
  unfold isMinIdx
  infer_instance

/-- A subtask box whose x axis is smaller than the resolved minimum crop size
in the sense of the claim: `right - size < left` exactly
(`0.199 - 0.1000...05 < 0.1000...05`). -/
def subC7 : FloatingPointBox :=
  ⟨pyFloat (Rat.divInt 1 10), 0, pyFloat (Rat.divInt 199 1000), 1⟩

/-- A `NewCrop` built from a degenerate supplied crop box with
`left == right == 0.5` inside the full-image subtask box. -/
def cropC8 : NewCrop :=
  ⟨1, ⟨100, 100⟩, ⟨0, 0, 1, 1⟩,
   ⟨pyFloat (Rat.divInt 5 10), pyFloat (Rat.divInt 1 10),
    pyFloat (Rat.divInt 5 10), pyFloat (Rat.divInt 2 10)⟩⟩

/-- The binary64 float written `j/100`: the subtask-box edges considered by
the amended C4 lie on this hundredths grid. -/
def gridQ (j : ℕ) : ℚ := pyFloat (Rat.divInt (j:ℤ) 100)

/-- A subtask box whose left edge `0.105` lies off the hundredths grid; its
spans (0.395 and 1.0) comfortably exceed the resolved minimum 0.1 per axis. -/
def subC4 : FloatingPointBox :=
  ⟨pyFloat (Rat.divInt 105 1000), 0, pyFloat (Rat.divInt 5 10), 1⟩

end CropGen

open CropGen

theorem qadd_eq (a b : ℚ) : qadd a b = a + b := by
  have ha : (a.den : ℚ) ≠ 0 := by exact_mod_cast a.den_nz
  have hb : (b.den : ℚ) ≠ 0 := by exact_mod_cast b.den_nz
  rw [qadd, Rat.divInt_eq_div]
  push_cast
  conv_rhs => rw [← Rat.num_div_den a, ← Rat.num_div_den b]
  field_simp

theorem qneg_eq (a : ℚ) : qneg a = -a := by
  rw [qneg, Rat.divInt_eq_div]
  push_cast
  rw [neg_div, Rat.num_div_den]

theorem qsub_eq (a b : ℚ) : qsub a b = a - b := by
  rw [qsub, qadd_eq, qneg_eq, sub_eq_add_neg]

theorem qmul_eq (a b : ℚ) : qmul a b = a * b := by
  have ha : (a.den : ℚ) ≠ 0 := by exact_mod_cast a.den_nz
  have hb : (b.den : ℚ) ≠ 0 := by exact_mod_cast b.den_nz
  rw [qmul, Rat.divInt_eq_div]
  push_cast
  conv_rhs => rw [← Rat.num_div_den a, ← Rat.num_div_den b]
  field_simp

theorem qdiv_eq (a b : ℚ) : qdiv a b = a / b := by
  rcases eq_or_ne b 0 with hb | hb
  · subst hb
    simp [qdiv, Rat.divInt_eq_div]
  · have ha : (a.den : ℚ) ≠ 0 := by exact_mod_cast a.den_nz
    have hbd : (b.den : ℚ) ≠ 0 := by exact_mod_cast b.den_nz
    have hbn : (b.num : ℚ) ≠ 0 := by exact_mod_cast Rat.num_ne_zero.2 hb
    rw [qdiv, Rat.divInt_eq_div]
    push_cast
    conv_rhs => rw [← Rat.num_div_den a, ← Rat.num_div_den b]
    field_simp

theorem qabs_eq (a : ℚ) : qabs a = |a| := by
  rw [qabs]
  split
  · rw [qneg_eq, abs_of_neg (by assumption)]
  · rw [abs_of_nonneg (not_lt.1 (by assumption))]

theorem pow2_eq (z : ℤ) : pow2 z = (2 : ℚ) ^ z := by
  rw [pow2]
  split
  · push_cast
    rw [← zpow_natCast]
    congr 1
    omega
  · rw [Rat.divInt_eq_div]
    push_cast
    rw [one_div, ← zpow_natCast, ← zpow_neg]
    congr 1
    omega

theorem qfloor_eq (q : ℚ) : Rat.floor q = ⌊q⌋ := (Rat.floor_def' q).trans Rat.floor_def.symm

theorem mulF32_comm (a b : Option ℚ) : mulF32 a b = mulF32 b a := by
  cases a <;> cases b <;> simp [mulF32, Option.bind, qmul_eq, mul_comm]


/-- C1: for every resolution, subtask box and crop box, the pixel converter
returns exactly the four stated floor-of-32-bit-product formulas: the x pair
`(pixel_left, pixel_right)` from `_get_x_coordinates_as_pixels` and the y pair
`(pixel_top, pixel_bottom)` from `_get_y_coordinates_as_pixels`, each
multiplication being performed in 32-bit floating point before flooring. -/
theorem c1_converter_formulas (c : NewCrop) :
    c.get_x_coordinates_as_pixels = spec_pixel_x c.resolution c.box c.subtask_box ∧
    c.get_y_coordinates_as_pixels = spec_pixel_y c.resolution c.box c.subtask_box := by
  constructor
  · unfold NewCrop.get_x_coordinates_as_pixels spec_pixel_x
    rw [mulF32_comm (npF32 c.subtask_box.left) (npF32int c.resolution.width)]
  · unfold NewCrop.get_y_coordinates_as_pixels spec_pixel_y
    rw [mulF32_comm (npF32 c.subtask_box.bottom) (npF32int c.resolution.height)]

/-- C2: for subtask {0,0,1,1}, resolution 1920x1080 and crop
{0.1,0.1,0.2,0.2}, the converter yields pixel_left=192, pixel_right=384,
pixel_top=864, pixel_bottom=972. -/
theorem c2_concrete_conversion :
    cropC2.get_x_coordinates_as_pixels.toOption = some (192, 384) ∧
    cropC2.get_y_coordinates_as_pixels.toOption = some (864, 972) := by
  constructor <;> decide

/-- C3: there exist a resolution, subtask box and crop box on which the
implemented reduced-precision (32-bit) conversion and the full-precision
(64-bit) variant disagree: at width 100 and crop.right 0.29 the 32-bit
product rounds up across the integer 29 while the 64-bit product stays below
it, so the produced pixel boxes differ. -/
theorem c3_precision_is_load_bearing :
    cropC3.calculate_crop_region_to_pixel_region.toOption ≠
    (calculate_full_precision cropC3).toOption := by
  decide

/-- C10: when a crop box is supplied to the constructor, construction and the
pixel-coordinate computations consult no random source: the result is the
same whatever the random draws would have been, and in particular two
constructions with identical id, resolution, subtask box and supplied crop
box store the same crop box and produce the same x and y pixel pairs. -/
theorem c10_supplied_crop_deterministic (id : ℤ) (res : Resolution)
    (sub crop : FloatingPointBox) (dx1 dy1 dx2 dy2 : ℤ) :
    mkNewCrop id res sub (some crop) dx1 dy1 = mkNewCrop id res sub (some crop) dx2 dy2 ∧
    Except.map (fun c => (c.box, c.get_x_coordinates_as_pixels, c.get_y_coordinates_as_pixels))
        (mkNewCrop id res sub (some crop) dx1 dy1) =
      Except.map (fun c => (c.box, c.get_x_coordinates_as_pixels, c.get_y_coordinates_as_pixels))
        (mkNewCrop id res sub (some crop) dx2 dy2) := by
  exact ⟨rfl, rfl⟩

/-- C6: containment validation at construction is component-wise inclusive:
a supplied crop box equal to the subtask box is accepted, while a crop box
exceeding any one of the four edges of the subtask box by epsilon = 0.001 is
rejected with the construction-time containment error (the source's
`ValueError`, the spec's `CropNotContainedError`). -/
theorem c6_containment_boundary (id : ℤ) (res : Resolution)
    (sub : FloatingPointBox) (dx dy : ℤ) :
    mkNewCrop id res sub (some sub) dx dy = Except.ok ⟨id, res, sub, sub⟩ ∧
    mkNewCrop id res sub (some ⟨sub.left - 1/1000, sub.top, sub.right, sub.bottom⟩) dx dy =
      Except.error PyErr.cropNotContained ∧
    mkNewCrop id res sub (some ⟨sub.left, sub.top - 1/1000, sub.right, sub.bottom⟩) dx dy =
      Except.error PyErr.cropNotContained ∧
    mkNewCrop id res sub (some ⟨sub.left, sub.top, sub.right + 1/1000, sub.bottom⟩) dx dy =
      Except.error PyErr.cropNotContained ∧
    mkNewCrop id res sub (some ⟨sub.left, sub.top, sub.right, sub.bottom + 1/1000⟩) dx dy =
      Except.error PyErr.cropNotContained := by
  refine ⟨?_, ?_, ?_, ?_, ?_⟩ <;>
      simp only [mkNewCrop, FloatingPointBox.contains, ge_iff_le, Bool.and_eq_true,
        decide_eq_true_eq, Bind.bind, Except.bind, pure, Except.pure] <;>
    first
      | (rw [if_pos]
         exact ⟨⟨⟨le_refl _, le_refl _⟩, le_refl _⟩, le_refl _⟩)
      | (rw [if_neg]
         intro h
         rcases h with ⟨⟨⟨h1, h2⟩, h3⟩, h4⟩
         linarith)

/-- C9: the two duplicate implementations agree: the old `Crop` sampler with
given draws equals the new `NewCrop` sampler on the same subtask box,
resolution and draws, and the two pixel converters produce identical pixel
regions on identical inputs. -/
theorem c9_old_new_equivalent (id : ℤ) (subimage : SubImage)
    (crop : FloatingPointBox) (dx dy : ℤ) :
    Crop.get_random_float_region subimage dx dy =
      generate_random_crop_box subimage.resolution subimage.region dx dy ∧
    Crop.calculate_crop_region_to_pixel_region subimage crop =
      NewCrop.calculate_crop_region_to_pixel_region
        ⟨id, subimage.resolution, subimage.region, crop⟩ := by
  constructor
  · unfold Crop.get_random_float_region generate_random_crop_box
      get_relative_crop_size get_coordinate_limits
    simp only [CROP_RELATIVE_SIZE]
    cases int2f64 (subimage.resolution.width : ℤ) <;>
      cases int2f64 (subimage.resolution.height : ℤ) <;>
      simp only [toE, Bind.bind, Except.bind, pure, Except.pure]
    cases fsub64 subimage.region.right (relLoop 1000 _ (pyFloat (Rat.divInt 1 10))) <;>
      simp only [toE, Bind.bind, Except.bind, pure, Except.pure]
    rename_i t1
    cases fmul64 t1 100 <;>
      simp only [toE, Bind.bind, Except.bind, pure, Except.pure]
    cases fmul64 subimage.region.left 100 <;>
      simp only [toE, Bind.bind, Except.bind, pure, Except.pure]
    split <;> try simp only [toE, Bind.bind, Except.bind, pure, Except.pure]
    cases fdiv64 (dx : ℚ) 100 <;>
      simp only [toE, Bind.bind, Except.bind, pure, Except.pure]
    rename_i xb
    cases fadd64 xb (relLoop 1000 _ (pyFloat (Rat.divInt 1 10))) <;>
      simp only [toE, Bind.bind, Except.bind, pure, Except.pure]
    cases fsub64 subimage.region.bottom (relLoop 1000 _ (pyFloat (Rat.divInt 1 10))) <;>
      simp only [toE, Bind.bind, Except.bind, pure, Except.pure]
    rename_i u1
    cases fmul64 u1 100 <;>
      simp only [toE, Bind.bind, Except.bind, pure, Except.pure]
    cases fmul64 subimage.region.top 100 <;>
      simp only [toE, Bind.bind, Except.bind, pure, Except.pure]
    split <;> try simp only [toE, Bind.bind, Except.bind, pure, Except.pure]
    cases fdiv64 (dy : ℚ) 100 <;>
      simp only [toE, Bind.bind, Except.bind, pure, Except.pure]
    rename_i yb
    cases fadd64 yb (relLoop 1000 _ (pyFloat (Rat.divInt 1 10))) <;>
      simp only [toE, Bind.bind, Except.bind, pure, Except.pure]
  · rfl

theorem divInt_half : Rat.divInt 1 2 = 1/2 := by
  rw [Rat.divInt_eq_div]
  norm_num

theorem pow2_neg_ofNat (n : ℕ) : (2:ℚ) ^ (-(n:ℤ)) = 1 / 2 ^ n := by
  rw [zpow_neg, zpow_natCast, one_div]

theorem nlog2_correct : ∀ f n, 1 ≤ n → n < 2 ^ (f + 1) →
    2 ^ nlog2 f n ≤ n ∧ n < 2 ^ (nlog2 f n + 1) := by
  intro f
  induction f with
  | zero =>
      intro n h1 h2
      simp only [nlog2, pow_zero, pow_one] at *
      omega
  | succ f ih =>
      intro n h1 h2
      by_cases hn : n ≤ 1
      · simp only [nlog2, if_pos hn, pow_zero, pow_one]
        omega
      · have hp : 2 ^ (f + 1 + 1) = 2 ^ (f + 1) * 2 := pow_succ 2 (f + 1)
        have h2' : n / 2 < 2 ^ (f + 1) := by omega
        have h1' : 1 ≤ n / 2 := by omega
        obtain ⟨hl, hr⟩ := ih (n / 2) h1' h2'
        simp only [nlog2, if_neg hn]
        have e1 : 2 ^ (nlog2 f (n / 2) + 1) = 2 ^ nlog2 f (n / 2) * 2 :=
          pow_succ 2 (nlog2 f (n / 2))
        have e2 : 2 ^ (nlog2 f (n / 2) + 1 + 1) = 2 ^ (nlog2 f (n / 2) + 1) * 2 :=
          pow_succ 2 (nlog2 f (n / 2) + 1)
        omega

theorem natLog2_correct (n : ℕ) (h : 1 ≤ n) :
    2 ^ natLog2 n ≤ n ∧ n < 2 ^ (natLog2 n + 1) := by
  refine nlog2_correct n n h ?_
  calc n < 2 ^ n := Nat.lt_two_pow n
  _ ≤ 2 ^ (n + 1) := Nat.pow_le_pow_right (by omega) (by omega)

theorem qexp_correct (q : ℚ) (hq : q ≠ 0) :
    (2:ℚ) ^ qexp q ≤ |q| ∧ |q| < 2 ^ (qexp q + 1) := by
  have hnum : 1 ≤ q.num.natAbs := by
    have := Rat.num_ne_zero.2 hq
    omega
  have hden : 1 ≤ q.den := q.den_pos
  obtain ⟨ha1, ha2⟩ := natLog2_correct q.num.natAbs hnum
  obtain ⟨hb1, hb2⟩ := natLog2_correct q.den hden
  set la := natLog2 q.num.natAbs with hla
  set lb := natLog2 q.den with hlb
  have hbpos : (0:ℚ) < (q.den : ℚ) := by positivity
  have habs : |q| = (q.num.natAbs : ℚ) / (q.den : ℚ) := by
    conv_lhs => rw [← Rat.num_div_den q]
    rw [abs_div, abs_of_pos hbpos]
    congr 1
    rw [Int.cast_natAbs, Int.cast_abs]
  have hQa1 : (2:ℚ) ^ la ≤ (q.num.natAbs : ℚ) := by exact_mod_cast ha1
  have hQa2 : (q.num.natAbs : ℚ) < 2 ^ (la + 1) := by exact_mod_cast ha2
  have hQb1 : (2:ℚ) ^ lb ≤ (q.den : ℚ) := by exact_mod_cast hb1
  have hQb2 : (q.den : ℚ) < 2 ^ (lb + 1) := by exact_mod_cast hb2
  have s1 : (2:ℚ) ^ ((la : ℤ) - lb - 1) = 2 ^ la / 2 ^ (lb + 1) := by
    rw [eq_div_iff (by positivity : ((2:ℚ) ^ (lb + 1)) ≠ 0),
      ← zpow_natCast (2:ℚ) (lb + 1), ← zpow_add₀ (by norm_num : (2:ℚ) ≠ 0),
      ← zpow_natCast (2:ℚ) la]
    congr 1
    push_cast
    ring
  have s2 : (2:ℚ) ^ ((la : ℤ) - lb + 1) = 2 ^ (la + 1) / 2 ^ lb := by
    rw [eq_div_iff (by positivity : ((2:ℚ) ^ lb) ≠ 0),
      ← zpow_natCast (2:ℚ) lb, ← zpow_add₀ (by norm_num : (2:ℚ) ≠ 0),
      ← zpow_natCast (2:ℚ) (la + 1)]
    congr 1
    push_cast
    ring
  have hlow : (2:ℚ) ^ ((la : ℤ) - lb - 1) < |q| := by
    rw [habs, lt_div_iff₀ hbpos, s1, div_mul_eq_mul_div,
      div_lt_iff₀ (by positivity : (0:ℚ) < 2 ^ (lb + 1))]
    nlinarith [hQa1, hQb2, hbpos, pow_pos (by norm_num : (0:ℚ) < 2) la]
  have hhigh : |q| < (2:ℚ) ^ ((la : ℤ) - lb + 1) := by
    rw [habs, div_lt_iff₀ hbpos, s2, div_mul_eq_mul_div,
      lt_div_iff₀ (by positivity : (0:ℚ) < 2 ^ lb)]
    nlinarith [hQa2, hQb1, pow_pos (by norm_num : (0:ℚ) < 2) lb,
      (by positivity : (0:ℚ) ≤ (q.num.natAbs : ℚ))]
  rw [qexp]
  simp only [pow2_eq, qabs_eq, ← hla, ← hlb]
  split
  · exact ⟨by assumption, hhigh⟩
  · constructor
    · exact le_of_lt hlow
    · have hnotle : ¬ ((2:ℚ) ^ ((la : ℤ) - lb) ≤ |q|) := by assumption
      have e : (la : ℤ) - lb - 1 + 1 = (la : ℤ) - lb := by ring
      rw [e]
      exact lt_of_not_le hnotle

theorem rnEven_sub_le (q : ℚ) : |(rnEven q : ℚ) - q| ≤ 1/2 := by
  rw [rnEven]
  simp only [qsub_eq, qfloor_eq, divInt_half]
  have h1 : (⌊q⌋ : ℚ) ≤ q := Int.floor_le q
  have h2 : q < ⌊q⌋ + 1 := Int.lt_floor_add_one q
  split
  · rw [abs_le]
    constructor <;> linarith [lt_of_lt_of_le (by assumption : q - ⌊q⌋ < 1/2) (le_refl (1/2 : ℚ))]
  · split
    · rw [abs_le]
      push_cast
      constructor <;> linarith
    · rw [abs_le]
      have hnl : ¬ (q - ⌊q⌋ < 1/2) := by assumption
      split <;> constructor <;> push_cast <;> linarith

theorem rnEven_ge_floor (q : ℚ) : ⌊q⌋ ≤ rnEven q := by
  rw [rnEven]
  simp only [qsub_eq, qfloor_eq, divInt_half]
  split
  · exact le_refl _
  · split
    · omega
    · split <;> omega

theorem rnEven_intCast (m : ℤ) : rnEven (m : ℚ) = m := by
  rw [rnEven]
  simp only [qsub_eq, qfloor_eq, divInt_half, Int.floor_intCast, sub_self]
  norm_num

theorem rnEven_eq_of_near (q : ℚ) (m : ℤ) (h : |q - m| < 1/2) : rnEven q = m := by
  rw [abs_lt] at h
  obtain ⟨h1, h2⟩ := h
  rw [rnEven]
  simp only [qsub_eq, qfloor_eq, divInt_half]
  rcases le_or_lt (m : ℚ) q with hc | hc
  · have hf : ⌊q⌋ = m := by
      rw [Int.floor_eq_iff]
      constructor
      · exact_mod_cast hc
      · linarith
    rw [hf, if_pos]
    linarith
  · have hf : ⌊q⌋ = m - 1 := by
      rw [Int.floor_eq_iff]
      push_cast
      constructor <;> linarith
    rw [hf, if_neg, if_pos]
    · omega
    · push_cast
      linarith
    · push_cast
      linarith

theorem pyFloat_of_some {q v : ℚ} (h : roundF64 q = some v) : pyFloat q = v := by
  rw [pyFloat, h]
  rfl

theorem zpow_half (z : ℤ) : (2:ℚ) ^ z / 2 = 2 ^ (z - 1) := by
  rw [div_eq_iff (by norm_num : (2:ℚ) ≠ 0), ← zpow_add_one₀ (by norm_num : (2:ℚ) ≠ 0)]
  congr 1
  ring

theorem roundF64_close (k : ℕ) (hk : k ≤ 1000) (q : ℚ) (hq : |q| ≤ 2 ^ (k:ℤ)) :
    ∃ v, roundF64 q = some v ∧ |v - q| ≤ 2 ^ ((k:ℤ) - 53) ∧
      |v| ≤ 2 ^ (k:ℤ) + 2 ^ ((k:ℤ) - 53) := by
  by_cases hq0 : q = 0
  · subst hq0
    refine ⟨0, ?_, ?_, ?_⟩
    · rw [roundF64, roundFl, if_pos rfl]
    · simp only [sub_zero, abs_zero]
      positivity
    · simp only [abs_zero]
      positivity
  · obtain ⟨he1, he2⟩ := qexp_correct q hq0
    have habspos : (0:ℚ) < |q| := abs_pos.2 hq0
    have he0k : qexp q ≤ (k:ℤ) := by
      by_contra hcon
      push_neg at hcon
      have : (2:ℚ) ^ (k:ℤ) < 2 ^ qexp q :=
        (zpow_lt_zpow_iff_right₀ (by norm_num : (1:ℚ) < 2)).2 hcon
      linarith
    set e : ℤ := if qexp q < -1022 then -1022 else qexp q with hedef
    have hek : e ≤ (k:ℤ) := by
      rw [hedef]
      split <;> omega
    have hee0 : qexp q ≤ e := by
      rw [hedef]
      split <;> omega
    set u : ℚ := pow2 (e - 53 + 1) with hudef
    have hueq : u = (2:ℚ) ^ (e - 52) := by
      rw [hudef, pow2_eq]
      congr 1
      ring
    have hupos : (0:ℚ) < u := by
      rw [hueq]
      positivity
    have huk : u ≤ 2 ^ ((k:ℤ) - 52) := by
      rw [hueq]
      exact zpow_le_zpow_right₀ (by norm_num) (by omega)
    set m : ℤ := rnEven (qdiv (qabs q) u) with hmdef
    have hqd : qdiv (qabs q) u = |q| / u := by rw [qdiv_eq, qabs_eq]
    have hmnear : |(m:ℚ) - |q| / u| ≤ 1/2 := by
      rw [hmdef, hqd]
      exact rnEven_sub_le _
    have hmge : (0:ℤ) ≤ m := by
      rw [hmdef]
      refine le_trans ?_ (rnEven_ge_floor _)
      rw [hqd]
      positivity
    set v0 : ℚ := qmul ((m:ℤ) : ℚ) u with hv0def
    have hv0 : v0 = (m:ℚ) * u := by rw [hv0def, qmul_eq]
    have hv0near : abs (v0 - |q|) ≤ u / 2 := by
      rw [hv0]
      have expand : (m:ℚ) * u - |q| = ((m:ℚ) - |q| / u) * u := by
        field_simp
      rw [expand, abs_mul, abs_of_pos hupos]
      calc |(m:ℚ) - |q| / u| * u ≤ (1/2) * u := by
            apply mul_le_mul_of_nonneg_right hmnear (le_of_lt hupos)
      _ = u / 2 := by ring
    have hv0nonneg : (0:ℚ) ≤ v0 := by
      rw [hv0]
      have : (0:ℚ) ≤ (m:ℚ) := by exact_mod_cast hmge
      positivity
    have hv0le : v0 ≤ |q| + u / 2 := by
      have := abs_le.1 hv0near
      linarith [this.2]
    have hv0err : abs (v0 - |q|) ≤ 2 ^ ((k:ℤ) - 53) := by
      calc abs (v0 - |q|) ≤ u / 2 := hv0near
      _ ≤ 2 ^ ((k:ℤ) - 52) / 2 := by linarith
      _ = 2 ^ ((k:ℤ) - 53) := by
          rw [zpow_half]
          congr 1
          ring
    have hv0bound : v0 ≤ 2 ^ (k:ℤ) + 2 ^ ((k:ℤ) - 53) := by
      have h1 : u / 2 ≤ 2 ^ ((k:ℤ) - 53) := by
        have := hv0err
        calc u / 2 ≤ 2 ^ ((k:ℤ) - 52) / 2 := by linarith
        _ = 2 ^ ((k:ℤ) - 53) := by
            rw [zpow_half]
            congr 1
            ring
      linarith
    have hover : ¬ (pow2 (1023 + 1) ≤ v0) := by
      rw [pow2_eq]
      push_neg
      calc v0 ≤ 2 ^ (k:ℤ) + 2 ^ ((k:ℤ) - 53) := hv0bound
      _ ≤ 2 ^ (1000:ℤ) + 2 ^ (1000:ℤ) := by
          have b1 : (2:ℚ) ^ (k:ℤ) ≤ 2 ^ (1000:ℤ) :=
            zpow_le_zpow_right₀ (by norm_num) (by omega)
          have b2 : (2:ℚ) ^ ((k:ℤ) - 53) ≤ 2 ^ (1000:ℤ) :=
            zpow_le_zpow_right₀ (by norm_num) (by omega)
          linarith
      _ = 2 ^ (1001:ℤ) := by
          rw [← two_mul, ← zpow_one_add₀ (by norm_num : (2:ℚ) ≠ 0)]
          norm_num
      _ < 2 ^ (1023 + 1:ℤ) :=
          (zpow_lt_zpow_iff_right₀ (by norm_num : (1:ℚ) < 2)).2 (by norm_num)
    have hres : roundF64 q = some (if q < 0 then qneg v0 else v0) := by
      rw [roundF64, roundFl, if_neg hq0]
      simp only [Nat.cast_ofNat]
      simp only [← hedef, ← hudef, ← hmdef, ← hv0def]
      rw [if_neg hover]
    refine ⟨if q < 0 then qneg v0 else v0, hres, ?_, ?_⟩
    · split
      · rename_i hneg
        rw [qneg_eq]
        have habs : |q| = -q := abs_of_neg hneg
        have hflip : -v0 - q = -(v0 - |q|) := by
          rw [habs]
          ring
        rw [hflip, abs_neg]
        exact hv0err
      · rename_i hpos
        have habs : |q| = q := abs_of_nonneg (not_lt.1 hpos)
        rw [← habs]
        exact hv0err
    · split
      · rw [qneg_eq, abs_neg, abs_of_nonneg hv0nonneg]
        exact hv0bound
      · rw [abs_of_nonneg hv0nonneg]
        exact hv0bound

theorem two_zpow_natCast (t : ℕ) : (2:ℚ) ^ ((t:ℕ):ℤ) = ((2 ^ t : ℤ) : ℚ) := by
  rw [zpow_natCast]
  push_cast
  ring

theorem roundF64_ge_pow (j : ℕ) (q v : ℚ) (hq : (2:ℚ) ^ (j:ℤ) ≤ q)
    (h : roundF64 q = some v) : (2:ℚ) ^ (j:ℤ) ≤ v := by
  have hq0 : q ≠ 0 := by
    have : (0:ℚ) < 2 ^ (j:ℤ) := by positivity
    intro hc
    rw [hc] at hq
    linarith
  have hqpos : (0:ℚ) < q := by
    have : (0:ℚ) < 2 ^ (j:ℤ) := by positivity
    linarith
  obtain ⟨he1, he2⟩ := qexp_correct q hq0
  rw [abs_of_pos hqpos] at he1 he2
  have hje : (j:ℤ) ≤ qexp q := by
    by_contra hcon
    push_neg at hcon
    have h1 : qexp q + 1 ≤ (j:ℤ) := by omega
    have : (2:ℚ) ^ (qexp q + 1) ≤ 2 ^ (j:ℤ) :=
      zpow_le_zpow_right₀ (by norm_num) h1
    linarith
  have hepos : (0:ℤ) ≤ qexp q := le_trans (Int.natCast_nonneg j) hje
  have hnotlt : ¬ (qexp q < -1022) := by omega
  rw [roundF64, roundFl, if_neg hq0] at h
  simp only [Nat.cast_ofNat, if_neg hnotlt] at h
  set u : ℚ := pow2 (qexp q - 53 + 1) with hudef
  have hueq : u = (2:ℚ) ^ (qexp q - 52) := by
    rw [hudef, pow2_eq]
    congr 1
    ring
  have hupos : (0:ℚ) < u := by
    rw [hueq]
    positivity
  set m : ℤ := rnEven (qdiv (qabs q) u) with hmdef
  have hfloorge : (2:ℚ) ^ (52:ℤ) ≤ (⌊q / u⌋ : ℚ) := by
    have hquot : (2:ℚ) ^ (52:ℤ) ≤ q / u := by
      rw [hueq, le_div_iff₀ (by rw [← hueq]; exact hupos)]
      calc (2:ℚ) ^ (52:ℤ) * 2 ^ (qexp q - 52) = 2 ^ qexp q := by
            rw [← zpow_add₀ (by norm_num : (2:ℚ) ≠ 0)]
            congr 1
            ring
      _ ≤ q := he1
    have hcast : ((2:ℚ) ^ (52:ℤ)) = ((2 ^ 52 : ℤ) : ℚ) := by
      rw [show (52:ℤ) = ((52:ℕ):ℤ) from rfl, two_zpow_natCast]
    rw [hcast] at hquot ⊢
    exact_mod_cast Int.le_floor.2 (by exact_mod_cast hquot)
  have hmge : (2:ℚ) ^ (52:ℤ) ≤ (m:ℚ) := by
    refine le_trans hfloorge ?_
    have : qdiv (qabs q) u = q / u := by
      rw [qdiv_eq, qabs_eq, abs_of_pos hqpos]
    rw [hmdef, this]
    exact_mod_cast rnEven_ge_floor (q / u)
  by_cases hov : pow2 (1023 + 1) ≤ qmul ((m:ℤ) : ℚ) u
  · rw [if_pos hov] at h
    exact absurd h (by simp)
  · rw [if_neg hov, if_neg (by linarith : ¬ q < 0)] at h
    have hv : v = (m:ℚ) * u := by
      have := h
      injection this with hh
      rw [← hh, qmul_eq]
    rw [hv, hueq]
    calc (2:ℚ) ^ (j:ℤ) ≤ 2 ^ qexp q := zpow_le_zpow_right₀ (by norm_num) hje
    _ = 2 ^ (52:ℤ) * 2 ^ (qexp q - 52) := by
        rw [← zpow_add₀ (by norm_num : (2:ℚ) ≠ 0)]
        congr 1
        ring
    _ ≤ (m:ℚ) * 2 ^ (qexp q - 52) := by
        apply mul_le_mul_of_nonneg_right hmge
        positivity

theorem roundF64_int_exact (n : ℕ) (h : n < 2 ^ 53) : roundF64 (n : ℚ) = some ((n : ℚ)) := by
  rcases Nat.eq_zero_or_pos n with h0 | hpos
  · subst h0
    rw [roundF64, roundFl]
    norm_num
  · have hq0 : ((n:ℚ)) ≠ 0 := by positivity
    have hqpos : (0:ℚ) < (n:ℚ) := by positivity
    obtain ⟨he1, he2⟩ := qexp_correct (n:ℚ) hq0
    rw [abs_of_pos hqpos] at he1 he2
    have hepos : (0:ℤ) ≤ qexp (n:ℚ) := by
      by_contra hcon
      push_neg at hcon
      have h1 : qexp (n:ℚ) + 1 ≤ 0 := by omega
      have h2 : (2:ℚ) ^ (qexp (n:ℚ) + 1) ≤ 2 ^ (0:ℤ) := zpow_le_zpow_right₀ (by norm_num) h1
      have h3 : (1:ℚ) ≤ (n:ℚ) := by exact_mod_cast hpos
      rw [zpow_zero] at h2
      linarith
    have hele : qexp (n:ℚ) ≤ 52 := by
      by_contra hcon
      push_neg at hcon
      have h53 : (53:ℤ) ≤ qexp (n:ℚ) := by omega
      have : (2:ℚ) ^ (53:ℤ) ≤ 2 ^ qexp (n:ℚ) := zpow_le_zpow_right₀ (by norm_num) h53
      have hn2 : ((n:ℚ)) < 2 ^ (53:ℤ) := by
        have hcast : ((2:ℚ) ^ (53:ℤ)) = ((2 ^ 53 : ℤ) : ℚ) := by
          rw [show (53:ℤ) = ((53:ℕ):ℤ) from rfl, two_zpow_natCast]
        rw [hcast]
        exact_mod_cast h
      linarith
    have hnotlt : ¬ (qexp (n:ℚ) < -1022) := by omega
    rw [roundF64, roundFl, if_neg hq0]
    simp only [Nat.cast_ofNat, if_neg hnotlt]
    set e := qexp (n:ℚ) with hedef
    set u : ℚ := pow2 (e - 53 + 1) with hudef
    have hueq : u = (2:ℚ) ^ (e - 52) := by
      rw [hudef, pow2_eq]
      congr 1
      ring
    have hupos : (0:ℚ) < u := by
      rw [hueq]
      positivity
    have hdiv : qdiv (qabs (n:ℚ)) u = ((n * 2 ^ (52 - e).toNat : ℕ) : ℚ) := by
      rw [qdiv_eq, qabs_eq, abs_of_pos hqpos, hueq]
      rw [div_eq_iff (by positivity : ((2:ℚ) ^ (e - 52)) ≠ 0)]
      push_cast
      rw [mul_assoc, ← zpow_natCast (2:ℚ) ((52 - e).toNat),
        ← zpow_add₀ (by norm_num : (2:ℚ) ≠ 0)]
      have : ((52 - e).toNat : ℤ) + (e - 52) = 0 := by omega
      rw [this, zpow_zero, mul_one]
    have hrn : rnEven (qdiv (qabs (n:ℚ)) u) = ((n * 2 ^ (52 - e).toNat : ℕ) : ℤ) := by
      rw [hdiv]
      have : (((n * 2 ^ (52 - e).toNat : ℕ) : ℚ)) = (((n * 2 ^ (52 - e).toNat : ℕ) : ℤ) : ℚ) := by
        push_cast
        ring
      rw [this, rnEven_intCast]
    rw [hrn]
    have hval : qmul (((n * 2 ^ (52 - e).toNat : ℕ) : ℤ) : ℚ) u = (n : ℚ) := by
      rw [qmul_eq, hueq]
      push_cast
      rw [mul_assoc, ← zpow_natCast (2:ℚ) ((52 - e).toNat),
        ← zpow_add₀ (by norm_num : (2:ℚ) ≠ 0)]
      have : ((52 - e).toNat : ℤ) + (e - 52) = 0 := by omega
      rw [this, zpow_zero, mul_one]
    rw [hval]
    have hnow : ¬ (pow2 (1023 + 1) ≤ (n:ℚ)) := by
      rw [pow2_eq]
      push_neg
      calc (n:ℚ) < 2 ^ (e + 1) := he2
      _ ≤ 2 ^ (1023 + 1:ℤ) := zpow_le_zpow_right₀ (by norm_num) (by omega)
    rw [if_neg hnow, if_neg (by linarith : ¬ ((n:ℚ) < 0))]

theorem neg_ofNat_48 : (-48:ℤ) = -((48:ℕ):ℤ) := rfl

theorem relLoop_stops (nf : ℚ) : ∀ fuel i k, i ≤ k → k ≤ i + fuel →
    (∀ j, i ≤ j → j < k → contLoop nf j = true) → contLoop nf k = false →
    relLoop fuel nf (relAccum i) = relAccum k := by
  intro fuel
  induction fuel with
  | zero =>
      intro i k h1 h2 _ _
      have heq : i = k := by omega
      subst heq
      rw [relLoop]
  | succ f ih =>
      intro i k h1 h2 hall hstop
      rcases eq_or_lt_of_le h1 with heq | hlt
      · subst heq
        rw [relLoop]
        cases hm : fmul64 (relAccum i) nf with
        | none => simp only [hm]
        | some p =>
            rw [contLoop, hm] at hstop
            simp only [decide_eq_false_iff_not] at hstop
            simp only [hm]
            rw [if_neg hstop]
      · have hci := hall i (le_refl i) hlt
        rw [contLoop] at hci
        rw [relLoop]
        cases hm : fmul64 (relAccum i) nf with
        | none =>
            rw [hm] at hci
            exact absurd hci (by simp)
        | some p =>
            rw [hm] at hci
            simp only [decide_eq_true_eq] at hci
            simp only [hm]
            rw [if_pos hci]
            have hstep : (fadd64 (relAccum i) STEP_SIZE).getD 0 = relAccum (i+1) := rfl
            rw [hstep]
            exact ih (i+1) k hlt (by omega) (fun j hj1 hj2 => hall j (by omega) hj2) hstop

theorem divInt_1_10 : Rat.divInt 1 10 = (1:ℚ)/10 := by
  rw [Rat.divInt_eq_div]
  norm_num

theorem divInt_1_100 : Rat.divInt 1 100 = (1:ℚ)/100 := by
  rw [Rat.divInt_eq_div]
  norm_num

set_option maxHeartbeats 1600000 in
theorem relAccum_close : ∀ k, k ≤ 1000 →
    |relAccum k - (1/10 + (k:ℚ)/100)| ≤ ((k:ℚ) + 1) * 2 ^ (-48 : ℤ) := by
  have hb110 : |(1:ℚ)/10| ≤ (2:ℚ) ^ ((0:ℕ):ℤ) := by
    rw [abs_of_nonneg (by norm_num : (0:ℚ) ≤ 1/10)]
    simp only [Nat.cast_zero, zpow_zero]
    norm_num
  have hb1100 : |(1:ℚ)/100| ≤ (2:ℚ) ^ ((0:ℕ):ℤ) := by
    rw [abs_of_nonneg (by norm_num : (0:ℚ) ≤ 1/100)]
    simp only [Nat.cast_zero, zpow_zero]
    norm_num
  have hp48 : (2:ℚ) ^ (-48:ℤ) = 1/2^48 := by
    rw [neg_ofNat_48, pow2_neg_ofNat]
  have hp53 : (2:ℚ) ^ (-53:ℤ) = 1/2^53 := by
    rw [show (-53:ℤ) = -((53:ℕ):ℤ) from rfl, pow2_neg_ofNat]
  have hp49 : (2:ℚ) ^ (-49:ℤ) = 1/2^49 := by
    rw [show (-49:ℤ) = -((49:ℕ):ℤ) from rfl, pow2_neg_ofNat]
  have he053 : (((0:ℕ):ℤ) - 53) = (-53:ℤ) := by norm_num
  intro k
  induction k with
  | zero =>
      intro _
      obtain ⟨v, hv, herr, _⟩ := roundF64_close 0 (by norm_num) ((1:ℚ)/10) hb110
      have h0 : relAccum 0 = v := by
        rw [relAccum, CROP_RELATIVE_SIZE, divInt_1_10, pyFloat_of_some hv]
      rw [h0]
      rw [he053, hp53] at herr
      obtain ⟨e1, e2⟩ := abs_le.1 herr
      simp only [Nat.cast_zero, zero_div, add_zero, zero_add, one_mul]
      rw [hp48, abs_le]
      constructor <;> nlinarith
  | succ k ih =>
      intro hk1
      have hk : k ≤ 1000 := by omega
      have ihk := ih hk
      have hkQ : (k:ℚ) ≤ 1000 := by exact_mod_cast hk
      have hkQ0 : (0:ℚ) ≤ (k:ℚ) := by positivity
      obtain ⟨s01, hs01, hserr0, _⟩ := roundF64_close 0 (by norm_num) ((1:ℚ)/100) hb1100
      have hSTEP : STEP_SIZE = s01 := by
        rw [STEP_SIZE, divInt_1_100, pyFloat_of_some hs01]
      have hserr : |s01 - 1/100| ≤ 1/2^53 := by
        rw [he053, hp53] at hserr0
        exact hserr0
      obtain ⟨se1, se2⟩ := abs_le.1 hserr
      obtain ⟨i1, i2⟩ := abs_le.1 ihk
      have hsmall : ((k:ℚ) + 1) * 2 ^ (-48:ℤ) ≤ 1 := by
        rw [hp48]
        have h2p : (1001:ℚ) ≤ 2^48 := by norm_num
        have hpos : (0:ℚ) < (2:ℚ)^48 := by positivity
        rw [mul_one_div, div_le_one hpos]
        linarith
      have hsum : |relAccum k + s01| ≤ (2:ℚ) ^ ((4:ℕ):ℤ) := by
        have h16 : ((2:ℚ) ^ ((4:ℕ):ℤ)) = 16 := by
          rw [zpow_natCast]
          norm_num
        rw [h16, abs_le]
        constructor <;> nlinarith [hsmall, i1, i2, se1, se2, hkQ0]
      obtain ⟨v, hv, herr, _⟩ := roundF64_close 4 (by norm_num) (relAccum k + s01) hsum
      have hnext : relAccum (k+1) = v := by
        rw [relAccum, hSTEP, fadd64, qadd_eq, hv]
        rfl
      rw [hnext]
      have herr49 : |v - (relAccum k + s01)| ≤ 1/2^49 := by
        have e : (((4:ℕ):ℤ) - 53) = (-49:ℤ) := by norm_num
        rw [e, hp49] at herr
        exact herr
      obtain ⟨v1, v2⟩ := abs_le.1 herr49
      have hcast : ((k+1:ℕ):ℚ) = (k:ℚ) + 1 := by push_cast; ring
      rw [hcast, hp48, abs_le]
      have hgoal48 : ((k:ℚ) + 1 + 1) * (1/2^48) = ((k:ℚ)+1) * (1/2^48) + 1/2^48 := by ring
      have hold48 : ((k:ℚ) + 1) * 2 ^ (-48:ℤ) = ((k:ℚ)+1) * (1/2^48) := by rw [hp48]
      rw [hold48] at i1 i2
      constructor <;> nlinarith [v1, v2, i1, i2, se1, se2]

theorem int2f64_nat_exact (n : ℕ) (h : n < 2^53) : int2f64 (n:ℤ) = some ((n:ℚ)) := by
  rw [int2f64, Int.cast_natCast]
  exact roundF64_int_exact n h

theorem crop_ge_tenth : Rat.divInt 1 10 ≤ CROP_RELATIVE_SIZE := by decide

theorem contLoop_false_of_prod_ge (nf : ℚ) (j : ℕ)
    (h : (8:ℚ) ≤ relAccum j * nf) : contLoop nf j = false := by
  rw [contLoop]
  have hfm : fmul64 (relAccum j) nf = roundF64 (relAccum j * nf) := by
    rw [fmul64, qmul_eq]
  cases hm : fmul64 (relAccum j) nf with
  | none => rfl
  | some v =>
      rw [hfm] at hm
      have h8 : (2:ℚ) ^ ((3:ℕ):ℤ) ≤ relAccum j * nf := by
        have : ((2:ℚ) ^ ((3:ℕ):ℤ)) = 8 := by
          rw [zpow_natCast]
          norm_num
        rw [this]
        exact h
      have hv := roundF64_ge_pow 3 _ v h8 hm
      have hv8 : (8:ℚ) ≤ v := by
        have : ((2:ℚ) ^ ((3:ℕ):ℤ)) = 8 := by
          rw [zpow_natCast]
          norm_num
        rw [this] at hv
        exact hv
      simp only [decide_eq_false_iff_not, not_lt, MIN_CROP_SIZE]
      exact hv8

theorem relAccum_ge_8_at_800 : (8:ℚ) ≤ relAccum 800 := by
  have h := relAccum_close 800 (by norm_num)
  obtain ⟨h1, h2⟩ := abs_le.1 h
  have hp : (2:ℚ) ^ (-48:ℤ) = 1/2^48 := by
    rw [neg_ofNat_48, pow2_neg_ofNat]
  rw [hp] at h1 h2
  have : ((800:ℕ):ℚ) = 800 := by norm_num
  rw [this] at h1 h2
  nlinarith

theorem relLoop_form (nf : ℚ) (hnf : 1 ≤ nf) :
    ∃ k, k ≤ 800 ∧ relLoop 1000 nf CROP_RELATIVE_SIZE = relAccum k := by
  have hstop : contLoop nf 800 = false := by
    apply contLoop_false_of_prod_ge
    calc (8:ℚ) = 8 * 1 := by ring
    _ ≤ relAccum 800 * nf := by
        apply mul_le_mul relAccum_ge_8_at_800 hnf (by norm_num)
        linarith [relAccum_ge_8_at_800]
  have hex : ∃ k, contLoop nf k = false := ⟨800, hstop⟩
  set k := Nat.find hex with hkdef
  have hk800 : k ≤ 800 := Nat.find_min' hex hstop
  have hkspec : contLoop nf k = false := Nat.find_spec hex
  have hmin : ∀ j, j < k → contLoop nf j = true := by
    intro j hj
    have := Nat.find_min hex hj
    simpa using this
  refine ⟨k, hk800, ?_⟩
  have h0 : relAccum 0 = CROP_RELATIVE_SIZE := rfl
  rw [← h0]
  exact relLoop_stops nf 1000 0 k (by omega) (by omega)
    (fun j _ hj2 => hmin j hj2) hkspec

theorem kmin_spec (n : ℕ) (hn : 0 < n) (h79 : n ≤ 79) :
    800 ≤ (10 + kmin n) * n ∧ (∀ j, j < kmin n → (10 + j) * n < 800) ∧
      kmin n ≤ 868 ∧ 11 ≤ (800 + n - 1) / n := by
  set c := (800 + n - 1) / n with hc
  have hdm := Nat.div_add_mod (800 + n - 1) n
  set r := (800 + n - 1) % n with hr
  have hrlt : r < n := Nat.mod_lt _ hn
  have hm : c * n + r = 800 + n - 1 := by
    rw [hc, hr, Nat.mul_comm]
    exact hdm
  have hmge : 800 ≤ c * n := by omega
  have hc11 : 11 ≤ c := by
    by_contra hcon
    push_neg at hcon
    have : c * n ≤ 10 * 79 := Nat.mul_le_mul (by omega) h79
    omega
  have hkm : kmin n = c - 10 := rfl
  refine ⟨?_, ?_, ?_, hc11⟩
  · rw [hkm]
    have : 10 + (c - 10) = c := by omega
    rw [this]
    exact hmge
  · intro j hj
    rw [hkm] at hj
    have hjc : 10 + j ≤ c - 1 := by omega
    have h1 : (10 + j) * n ≤ (c - 1) * n := Nat.mul_le_mul_right n hjc
    have h2 : (c - 1) * n + n = c * n := by
      have : c - 1 + 1 = c := by omega
      calc (c - 1) * n + n = (c - 1 + 1) * n := by ring
      _ = c * n := by rw [this]
    omega
  · rw [hkm]
    have hcn : c ≤ c * n := Nat.le_mul_of_pos_right c hn
    omega

theorem contLoop_true_small (n j : ℕ) (hn : 1 ≤ n) (h79 : n ≤ 79) (hj : j ≤ 1000)
    (hlt : (10 + j) * n < 800) : contLoop ((n:ℕ):ℚ) j = true := by
  have hcl := relAccum_close j hj
  obtain ⟨c1, c2⟩ := abs_le.1 hcl
  have hp48 : (2:ℚ) ^ (-48:ℤ) = 1/2^48 := by
    rw [neg_ofNat_48, pow2_neg_ofNat]
  rw [hp48] at c1 c2
  have hjQ : (j:ℚ) ≤ 1000 := by exact_mod_cast hj
  have hjQ0 : (0:ℚ) ≤ (j:ℚ) := by positivity
  have hnQ : (1:ℚ) ≤ (n:ℚ) := by exact_mod_cast hn
  have hnQ79 : (n:ℚ) ≤ 79 := by exact_mod_cast h79
  have hnQ0 : (0:ℚ) ≤ (n:ℚ) := by positivity
  have hltQ : ((10:ℚ) + j) * n ≤ 799 := by
    exact_mod_cast (show (10 + j) * n ≤ 799 by omega)
  have h2p : (79079:ℚ) * 200 ≤ 2^48 := by norm_num
  have haccpos : (0:ℚ) ≤ relAccum j := by nlinarith
  have hc2n := mul_le_mul_of_nonneg_right c2 hnQ0
  have hjn : (j:ℚ) * n ≤ 79000 := by nlinarith
  have hXlt : relAccum j * (n:ℚ) < 8 - 1/200 := by nlinarith
  have hprod : |relAccum j * (n:ℚ)| ≤ (2:ℚ) ^ ((3:ℕ):ℤ) := by
    have h8 : ((2:ℚ) ^ ((3:ℕ):ℤ)) = 8 := by
      rw [zpow_natCast]
      norm_num
    rw [h8, abs_of_nonneg (by positivity)]
    linarith
  obtain ⟨v, hv, herr, _⟩ := roundF64_close 3 (by norm_num) _ hprod
  have herr50 : |v - relAccum j * (n:ℚ)| ≤ 1/2^50 := by
    have e : (((3:ℕ):ℤ) - 53) = (-50:ℤ) := by norm_num
    rw [e, show (-50:ℤ) = -((50:ℕ):ℤ) from rfl, pow2_neg_ofNat] at herr
    exact herr
  obtain ⟨e1, e2⟩ := abs_le.1 herr50
  rw [contLoop]
  have hfm : fmul64 (relAccum j) ((n:ℕ):ℚ) = some v := by
    rw [fmul64, qmul_eq]
    exact hv
  rw [hfm]
  simp only [decide_eq_true_eq, MIN_CROP_SIZE]
  have h2p50 : (200:ℚ) ≤ 2^50 := by norm_num
  nlinarith

theorem contLoop_false_exgt (n j : ℕ) (h79 : n ≤ 79) (hj : j ≤ 1000)
    (hgt : 800 < (10 + j) * n) : contLoop ((n:ℕ):ℚ) j = false := by
  apply contLoop_false_of_prod_ge
  have hcl := relAccum_close j hj
  obtain ⟨c1, c2⟩ := abs_le.1 hcl
  have hp48 : (2:ℚ) ^ (-48:ℤ) = 1/2^48 := by
    rw [neg_ofNat_48, pow2_neg_ofNat]
  rw [hp48] at c1 c2
  have hjQ : (j:ℚ) ≤ 1000 := by exact_mod_cast hj
  have hjQ0 : (0:ℚ) ≤ (j:ℚ) := by positivity
  have hnQ79 : (n:ℚ) ≤ 79 := by exact_mod_cast h79
  have hnQ0 : (0:ℚ) ≤ (n:ℚ) := by positivity
  have hgtQ : (801:ℚ) ≤ ((10:ℚ) + j) * n := by
    have h801 : (801:ℕ) ≤ (10 + j) * n := by omega
    exact_mod_cast h801
  have h2p : (79079:ℚ) ≤ 2^48 := by norm_num
  have hc1n := mul_le_mul_of_nonneg_right c1 hnQ0
  have hjn : (j:ℚ) * n ≤ 79000 := by nlinarith
  nlinarith

theorem relAccum_add (a b : ℕ) : relAccum (a + b) = accFrom (relAccum a) b := by
  induction b with
  | zero => rfl
  | succ b ih =>
      show (fadd64 (relAccum (a + b)) STEP_SIZE).getD 0
          = (fadd64 (accFrom (relAccum a) b) STEP_SIZE).getD 0
      rw [ih]

theorem acc100 : relAccum 100 = Rat.divInt 4953959590107549 4503599627370496 := by
  decide

theorem acc200 : relAccum 200 = Rat.divInt 4728779608739019 2251799813685248 := by
  rw [show (200:ℕ) = 100 + 100 from rfl, relAccum_add, acc100]
  decide

theorem acc300 : relAccum 300 = Rat.divInt 6980579422424219 2251799813685248 := by
  rw [show (300:ℕ) = 200 + 100 from rfl, relAccum_add, acc200]
  decide

theorem acc400 : relAccum 400 = Rat.divInt 2308094809027355 562949953421312 := by
  rw [show (400:ℕ) = 300 + 100 from rfl, relAccum_add, acc300]
  decide

theorem acc500 : relAccum 500 = Rat.divInt 2871044762448655 562949953421312 := by
  rw [show (500:ℕ) = 400 + 100 from rfl, relAccum_add, acc400]
  decide

theorem acc600 : relAccum 600 = Rat.divInt 3433994715869955 562949953421312 := by
  rw [show (600:ℕ) = 500 + 100 from rfl, relAccum_add, acc500]
  decide

theorem acc700 : relAccum 700 = Rat.divInt 3996944669291255 562949953421312 := by
  rw [show (700:ℕ) = 600 + 100 from rfl, relAccum_add, acc600]
  decide

theorem acc390 : relAccum 390 = Rat.divInt 9007199254740899 2251799813685248 := by
  rw [show (390:ℕ) = 300 + 90 from rfl, relAccum_add, acc300]
  decide

theorem acc790 : relAccum 790 = Rat.divInt 4503599627370425 562949953421312 := by
  rw [show (790:ℕ) = 700 + 90 from rfl, relAccum_add, acc700]
  decide

/-- For each divisor `n` of 800 with `3 ≤ n ≤ 79`, the loop's accumulated
float at the critical index `kmin n` (where the exact product equals 8) is
large enough that the exact product already reaches 8; the rounding errors of
the accumulation happen to be favourable at every one of these indices. -/
theorem critD4 : (8:ℚ) ≤ qmul (relAccum 190) ((4:ℕ):ℚ) := by
  rw [show (190:ℕ) = 100 + 90 from rfl, relAccum_add, acc100]
  decide

theorem critD5 : (8:ℚ) ≤ qmul (relAccum 150) ((5:ℕ):ℚ) := by
  rw [show (150:ℕ) = 100 + 50 from rfl, relAccum_add, acc100]
  decide

theorem critD8 : (8:ℚ) ≤ qmul (relAccum 90) ((8:ℕ):ℚ) := by
  decide

theorem critD10 : (8:ℚ) ≤ qmul (relAccum 70) ((10:ℕ):ℚ) := by
  decide

theorem critD16 : (8:ℚ) ≤ qmul (relAccum 40) ((16:ℕ):ℚ) := by
  decide

theorem critD20 : (8:ℚ) ≤ qmul (relAccum 30) ((20:ℕ):ℚ) := by
  decide

theorem critD25 : (8:ℚ) ≤ qmul (relAccum 22) ((25:ℕ):ℚ) := by
  decide

theorem critD32 : (8:ℚ) ≤ qmul (relAccum 15) ((32:ℕ):ℚ) := by
  decide

theorem critD40 : (8:ℚ) ≤ qmul (relAccum 10) ((40:ℕ):ℚ) := by
  decide

theorem critD50 : (8:ℚ) ≤ qmul (relAccum 6) ((50:ℕ):ℚ) := by
  decide

/-- At axis length 1 the loop is still running at index 790 (where the exact
grid value `8.00` is first reached): the accumulated float falls just short
of `8`. -/
theorem contLoop_1_790 : contLoop ((1:ℕ):ℚ) 790 = true := by
  rw [contLoop, acc790]
  decide

/-- At axis length 2 the loop is still running at index 390 for the same
reason. -/
theorem contLoop_2_390 : contLoop ((2:ℕ):ℚ) 390 = true := by
  rw [contLoop, acc390]
  decide

/-- Axis length 1: the loop stops at index 791, one past the exact-arithmetic
minimum 790. -/
theorem resolver_one : relLoop 1000 ((1:ℕ):ℚ) CROP_RELATIVE_SIZE = relAccum 791 := by
  have h0 : relAccum 0 = CROP_RELATIVE_SIZE := rfl
  rw [← h0]
  apply relLoop_stops ((1:ℕ):ℚ) 1000 0 791 (by omega) (by omega)
  · intro j _ hj
    rcases Nat.lt_or_ge j 790 with hlt | hge
    · exact contLoop_true_small 1 j (by omega) (by omega) (by omega) (by omega)
    · have hj790 : j = 790 := by omega
      subst hj790
      exact contLoop_1_790
  · exact contLoop_false_exgt 1 791 (by omega) (by omega) (by omega)

/-- Axis length 2: the loop stops at index 391, one past the exact-arithmetic
minimum 390. -/
theorem resolver_two : relLoop 1000 ((2:ℕ):ℚ) CROP_RELATIVE_SIZE = relAccum 391 := by
  have h0 : relAccum 0 = CROP_RELATIVE_SIZE := rfl
  rw [← h0]
  apply relLoop_stops ((2:ℕ):ℚ) 1000 0 391 (by omega) (by omega)
  · intro j _ hj
    rcases Nat.lt_or_ge j 390 with hlt | hge
    · exact contLoop_true_small 2 j (by omega) (by omega) (by omega) (by omega)
    · have hj390 : j = 390 := by omega
      subst hj390
      exact contLoop_2_390
  · exact contLoop_false_exgt 2 391 (by omega) (by omega) (by omega)

/-- Axis lengths 3..79: the loop stops exactly at the exact-arithmetic
minimal index `kmin n`. -/
theorem resolver_small (n : ℕ) (h3 : 3 ≤ n) (h79 : n ≤ 79) :
    relLoop 1000 ((n:ℕ):ℚ) CROP_RELATIVE_SIZE = relAccum (kmin n) := by
  obtain ⟨hge, hmin, hk868, hc11⟩ := kmin_spec n (by omega) h79
  have h0 : relAccum 0 = CROP_RELATIVE_SIZE := rfl
  rw [← h0]
  apply relLoop_stops ((n:ℕ):ℚ) 1000 0 (kmin n) (by omega) (by omega)
  · intro j _ hj
    exact contLoop_true_small n j (by omega) h79 (by omega) (hmin j hj)
  · rcases lt_or_eq_of_le hge with hgt | heq2
    · exact contLoop_false_exgt n (kmin n) h79 (by omega) hgt
    · apply contLoop_false_of_prod_ge
      rw [← qmul_eq]
      interval_cases n <;>
        first
        | exact absurd heq2 (by decide)
        | (rw [show kmin 4 = 190 from by decide]; exact critD4)
        | (rw [show kmin 5 = 150 from by decide]; exact critD5)
        | (rw [show kmin 8 = 90 from by decide]; exact critD8)
        | (rw [show kmin 10 = 70 from by decide]; exact critD10)
        | (rw [show kmin 16 = 40 from by decide]; exact critD16)
        | (rw [show kmin 20 = 30 from by decide]; exact critD20)
        | (rw [show kmin 25 = 22 from by decide]; exact critD25)
        | (rw [show kmin 32 = 15 from by decide]; exact critD32)
        | (rw [show kmin 40 = 10 from by decide]; exact critD40)
        | (rw [show kmin 50 = 6 from by decide]; exact critD50)

/-- When the very first product already reaches 8, the loop performs no
iteration. -/
theorem resolver_stop0 (nf : ℚ) (h8 : (8:ℚ) ≤ CROP_RELATIVE_SIZE * nf) :
    relLoop 1000 nf CROP_RELATIVE_SIZE = relAccum 0 := by
  have h0 : relAccum 0 = CROP_RELATIVE_SIZE := rfl
  rw [← h0]
  apply relLoop_stops nf 1000 0 0 (by omega) (by omega)
    (fun j _ hj2 => absurd hj2 (Nat.not_lt_zero j))
  apply contLoop_false_of_prod_ge
  exact h8

/-- For axis lengths of at least 80 the exact-arithmetic minimal index is 0. -/
theorem kmin_zero (n : ℕ) (h80 : 80 ≤ n) : kmin n = 0 := by
  have h1 : (800 + n - 1) / n < 11 :=
    (Nat.div_lt_iff_lt_mul (by omega)).mpr (by omega)
  rw [kmin]
  omega

theorem stopIdx_ne12 (n : ℕ) (h1 : n ≠ 1) (h2 : n ≠ 2) : stopIdx n = kmin n := by
  rw [stopIdx, if_neg h1, if_neg h2]

theorem stopIdx_le_1000 (n : ℕ) (hn : 0 < n) : stopIdx n ≤ 1000 := by
  by_cases h1 : n = 1
  · rw [stopIdx, if_pos h1]
    omega
  by_cases h2 : n = 2
  · rw [stopIdx, if_neg h1, if_pos h2]
    omega
  rw [stopIdx_ne12 n h1 h2]
  rcases Nat.lt_or_ge n 80 with h80 | h80
  · obtain ⟨_, _, hk, _⟩ := kmin_spec n hn (by omega)
    omega
  · rw [kmin_zero n h80]
    omega

theorem isMinIdx_kmin (n : ℕ) (hn : 0 < n) : isMinIdx n (kmin n) := by
  rcases Nat.lt_or_ge n 80 with h80 | h80
  · obtain ⟨hge, hmin, _, _⟩ := kmin_spec n hn (by omega)
    exact ⟨hge, hmin⟩
  · rw [kmin_zero n h80]
    exact ⟨by omega, fun j hj => absurd hj (Nat.not_lt_zero j)⟩

/-- The accumulated float after `k` loop steps is within `2 ^ (-38)` of the
exact grid value `(10 + k) / 100`. -/
theorem relAccum_grid_close (k : ℕ) (hk : k ≤ 1000) :
    |relAccum k - ((10 + k : ℕ) : ℚ) / 100| ≤ 2 ^ (-(38:ℤ)) := by
  have h := relAccum_close k hk
  have hg : ((10 + k : ℕ) : ℚ) / 100 = 1/10 + (k:ℚ)/100 := by
    push_cast
    ring
  rw [hg]
  refine le_trans h ?_
  have h38 : (2:ℚ) ^ (-(38:ℤ)) = 1024 * 2 ^ (-48:ℤ) := by
    rw [show (-(38:ℤ)) = 10 + -48 from by norm_num,
      zpow_add₀ (by norm_num : (2:ℚ) ≠ 0),
      show ((10:ℤ)) = ((10:ℕ):ℤ) from rfl, zpow_natCast]
    norm_num
  rw [h38]
  have hk1 : (k:ℚ) + 1 ≤ 1024 := by
    have : (k:ℚ) ≤ 1000 := by exact_mod_cast hk
    linarith
  have hp : (0:ℚ) < 2 ^ (-48:ℤ) := by positivity
  nlinarith

/-- `_get_relative_crop_size` on a resolution whose two int-to-float
conversions succeed. -/
theorem resolver_ok (res : Resolution) (wf hf : ℚ)
    (hwf : int2f64 (res.width : ℤ) = some wf)
    (hhf : int2f64 (res.height : ℤ) = some hf) :
    get_relative_crop_size res
      = Except.ok (relLoop 1000 wf CROP_RELATIVE_SIZE,
          relLoop 1000 hf CROP_RELATIVE_SIZE) := by
  unfold get_relative_crop_size
  rw [hwf, hhf]
  simp only [toE, Bind.bind, Except.bind, pure, Except.pure]

/-- Per-axis behaviour of the resolver: for every axis length up to `2 ^ 999`
the int-to-float conversion succeeds and the loop stops exactly at index
`stopIdx n`. -/
theorem resolver_axis (n : ℕ) (hn : 0 < n) (h9 : n ≤ 2 ^ 999) :
    ∃ nf, int2f64 (n:ℤ) = some nf ∧
      relLoop 1000 nf CROP_RELATIVE_SIZE = relAccum (stopIdx n) := by
  rcases Nat.lt_or_ge n (2 ^ 53) with h53 | h53
  · refine ⟨((n:ℕ):ℚ), int2f64_nat_exact n h53, ?_⟩
    by_cases h1 : n = 1
    · subst h1
      rw [show stopIdx 1 = 791 from rfl]
      exact resolver_one
    by_cases h2 : n = 2
    · subst h2
      rw [show stopIdx 2 = 391 from rfl]
      exact resolver_two
    rw [stopIdx_ne12 n h1 h2]
    rcases Nat.lt_or_ge n 80 with h80 | h80
    · exact resolver_small n (by omega) (by omega)
    · rw [kmin_zero n h80]
      apply resolver_stop0
      have hn80 : (80:ℚ) ≤ ((n:ℕ):ℚ) := by exact_mod_cast h80
      have hc := crop_ge_tenth
      rw [divInt_1_10] at hc
      have hm := mul_le_mul hc hn80 (by norm_num) (le_trans (by norm_num) hc)
      have h8 : (1:ℚ)/10 * 80 = 8 := by norm_num
      linarith
  · have h80 : 80 ≤ n := le_trans (by norm_num) h53
    have habs : |((n:ℕ):ℚ)| ≤ 2 ^ ((999:ℕ):ℤ) := by
      rw [abs_of_nonneg (by positivity), two_zpow_natCast]
      exact_mod_cast h9
    obtain ⟨v, hv, _, _⟩ := roundF64_close 999 (by norm_num) ((n:ℕ):ℚ) habs
    refine ⟨v, ?_, ?_⟩
    · rw [int2f64, Int.cast_natCast]
      exact hv
    · rw [stopIdx_ne12 n (by omega) (by omega), kmin_zero n h80]
      apply resolver_stop0
      have h52q : (2:ℚ) ^ ((52:ℕ):ℤ) ≤ ((n:ℕ):ℚ) := by
        rw [two_zpow_natCast]
        have h52n : (2 ^ 52 : ℕ) ≤ n := le_trans (by norm_num) h53
        exact_mod_cast h52n
      have hv52 := roundF64_ge_pow 52 _ v h52q hv
      rw [show (2:ℚ) ^ (((52:ℕ)):ℤ) = (2:ℚ) ^ (52:ℕ) from zpow_natCast 2 52] at hv52
      have hv80 : (80:ℚ) ≤ v := le_trans (by norm_num) hv52
      have hc := crop_ge_tenth
      rw [divInt_1_10] at hc
      have hm := mul_le_mul hc hv80 (by norm_num) (le_trans (by norm_num) hc)
      have h8 : (1:ℚ)/10 * 80 = 8 := by norm_num
      linarith

/-- C5: the minimum-size resolver, corrected.  The source accumulates binary64
floats, so it does not return the exact grid value `0.10 + k * 0.01`: it
returns the accumulated float `relAccum (stopIdx n)` per axis, which lies
within `2 ^ (-38)` of the exact grid value `(10 + stopIdx n) / 100`.  For every
axis length other than 1 and 2 the stopping index `stopIdx n` is exactly the
least `k` with `(0.10 + k * 0.01) * n ≥ 8` (so in particular index 0 for
`n = 80` and index 1 for `n = 79`); for `n ∈ {1, 2}` accumulated rounding
error makes the loop run one step past the exact-arithmetic minimum. -/
theorem c5_resolver_minimal (w h : ℕ) (hw : 0 < w) (hh : 0 < h)
    (hw9 : w ≤ 2 ^ 999) (hh9 : h ≤ 2 ^ 999) :
    get_relative_crop_size ⟨w, h⟩
        = Except.ok (relAccum (stopIdx w), relAccum (stopIdx h))
      ∧ |relAccum (stopIdx w) - ((10 + stopIdx w : ℕ) : ℚ) / 100| ≤ 2 ^ (-(38:ℤ))
      ∧ |relAccum (stopIdx h) - ((10 + stopIdx h : ℕ) : ℚ) / 100| ≤ 2 ^ (-(38:ℤ))
      ∧ (w ≠ 1 → w ≠ 2 → isMinIdx w (stopIdx w))
      ∧ (h ≠ 1 → h ≠ 2 → isMinIdx h (stopIdx h))
      ∧ ((w = 1 ∨ w = 2) → isMinIdx w (kmin w) ∧ stopIdx w = kmin w + 1)
      ∧ ((h = 1 ∨ h = 2) → isMinIdx h (kmin h) ∧ stopIdx h = kmin h + 1) := by
  obtain ⟨wf, hwf, hwl⟩ := resolver_axis w hw hw9
  obtain ⟨hf2, hhf, hhl⟩ := resolver_axis h hh hh9
  refine ⟨?_, ?_, ?_, ?_, ?_, ?_, ?_⟩
  · rw [resolver_ok ⟨w, h⟩ wf hf2 hwf hhf, hwl, hhl]
  · exact relAccum_grid_close (stopIdx w) (stopIdx_le_1000 w hw)
  · exact relAccum_grid_close (stopIdx h) (stopIdx_le_1000 h hh)
  · intro h1 h2
    rw [stopIdx_ne12 w h1 h2]
    exact isMinIdx_kmin w hw
  · intro h1 h2
    rw [stopIdx_ne12 h h1 h2]
    exact isMinIdx_kmin h hh
  · intro hc
    rcases hc with h1 | h2
    · subst h1
      exact ⟨isMinIdx_kmin 1 (by omega), by decide⟩
    · subst h2
      exact ⟨isMinIdx_kmin 2 (by omega), by decide⟩
  · intro hc
    rcases hc with e1 | e2
    · subst e1
      exact ⟨isMinIdx_kmin 1 (by omega), by decide⟩
    · subst e2
      exact ⟨isMinIdx_kmin 2 (by omega), by decide⟩

/-- Witness for C5 at the claim's own boundary pair: width 80 (index 0, grid
value 0.10) and height 79 (index 1, grid value 0.11). -/
theorem c5_resolver_minimal_witness :
    (0 < (80:ℕ)) ∧ (0 < (79:ℕ)) ∧ (80:ℕ) ≤ 2 ^ 999 ∧ (79:ℕ) ≤ 2 ^ 999 ∧
    stopIdx 80 = 0 ∧ stopIdx 79 = 1 ∧
    get_relative_crop_size ⟨80, 79⟩
      = Except.ok (relAccum (stopIdx 80), relAccum (stopIdx 79)) :=
  ⟨by decide, by decide, by norm_num, by norm_num, by decide, by decide,
   (c5_resolver_minimal 80 79 (by decide) (by decide) (by norm_num)
     (by norm_num)).1⟩

/-- Counterexample for C5 as literally stated: the resolver does not return
the exact decimal values 0.10 and 0.11 for axis lengths 80 and 79 — it
returns their binary64 approximations (`0.1000000000000000055511...` and
`0.1100000000000000005551...`). -/
theorem c5_counterexample :
    get_relative_crop_size ⟨80, 79⟩
        = Except.ok (CROP_RELATIVE_SIZE, relAccum 1)
      ∧ CROP_RELATIVE_SIZE ≠ Rat.divInt 10 100
      ∧ relAccum 1 ≠ Rat.divInt 11 100 :=
  ⟨by rfl, by decide, by decide⟩

/-- C7: the claimed guard does not exist in the code.  For resolution
`[100, 100]` and subtask box `(0.1, 0.0, 0.199, 1.0)` the x axis satisfies the
claim's precondition `upper_edge - span < lower_edge`, yet the sampler raises
nothing at all — rounding the borders to integer percents makes the
`randint` range `[10, 10]` non-empty, the draw happens, and a crop box is
returned. -/
theorem c7_small_axis_not_rejected :
    ∃ s box,
      get_relative_crop_size ⟨100, 100⟩ = Except.ok (s, s)
      ∧ subC7.right - s < subC7.left
      ∧ (randint_bounds subC7.left subC7.right s).1
          = (randint_bounds subC7.left subC7.right s).2
      ∧ generate_random_crop_box ⟨100, 100⟩ subC7 10 0 = Except.ok box := by
  refine ⟨CROP_RELATIVE_SIZE,
    ⟨Rat.divInt 3602879701896397 36028797018963968, 0,
     Rat.divInt 3602879701896397 18014398509481984,
     Rat.divInt 3602879701896397 36028797018963968⟩, by rfl, ?_, by decide, by rfl⟩
  have e1 : subC7.right = Rat.divInt 3584865303386915 18014398509481984 := by decide
  have e2 : subC7.left = Rat.divInt 3602879701896397 36028797018963968 := by decide
  have e3 : CROP_RELATIVE_SIZE = Rat.divInt 3602879701896397 36028797018963968 := by
    decide
  rw [e1, e2, e3, Rat.divInt_eq_div, Rat.divInt_eq_div]
  norm_num

/-- C8: no `DegenerateRegionError` is ever signalled.  A crop box with
`left == right` passes construction (containment holds), and the converter
returns the degenerate pixel region `(50, 80, 50, 90)` — `pixel_right >
pixel_left` fails — as a normal result instead of signalling an error. -/
theorem c8_degenerate_not_signalled :
    cropC8.box.left = cropC8.box.right
    ∧ mkNewCrop 1 ⟨100, 100⟩ ⟨0, 0, 1, 1⟩ (some cropC8.box) 0 0 = Except.ok cropC8
    ∧ ∃ r : PixelRegion,
        cropC8.calculate_crop_region_to_pixel_region = Except.ok r
        ∧ ¬ r.left < r.right :=
  ⟨rfl, by rfl, ⟨⟨50, 80, 50, 90⟩, by rfl, by decide⟩⟩

theorem gridQ_spec (j : ℕ) (hj : j ≤ 100) :
    roundF64 ((j:ℚ)/100) = some (gridQ j) ∧
      |gridQ j - (j:ℚ)/100| ≤ 2 ^ (-(53:ℤ)) := by
  have hjq : |(j:ℚ)/100| ≤ 2 ^ ((0:ℕ):ℤ) := by
    rw [abs_of_nonneg (by positivity)]
    simp only [Nat.cast_zero, zpow_zero]
    have hj100 : (j:ℚ) ≤ 100 := by exact_mod_cast hj
    rw [div_le_one (by norm_num : (0:ℚ) < 100)]
    linarith
  obtain ⟨v, hv, herr, _⟩ := roundF64_close 0 (by norm_num) _ hjq
  have hgq : gridQ j = v := by
    rw [gridQ]
    have harg : Rat.divInt (j:ℤ) 100 = (j:ℚ)/100 := by
      rw [Rat.divInt_eq_div]
      push_cast
      ring
    rw [harg]
    exact pyFloat_of_some hv
  have he : (((0:ℕ):ℤ) - 53) = (-(53:ℤ)) := by norm_num
  rw [he] at herr
  exact ⟨by rw [hgq]; exact hv, by rw [hgq]; exact herr⟩

/-- `randint_bounds` when none of the three float operations overflows. -/
theorem randint_bounds_eq (lower upper span t1 t2 lo3 : ℚ)
    (h1 : fsub64 upper span = some t1)
    (h2 : fmul64 t1 100 = some t2)
    (h3 : fmul64 lower 100 = some lo3) :
    randint_bounds lower upper span = (pyRoundInt lo3, pyRoundInt t2) := by
  rw [randint_bounds, h1, h3]
  simp only [Option.getD_some]
  rw [h2]
  simp only [Option.getD_some]

/-- `_get_coordinate_limits` on the success path, expressed through the
intermediate float values. -/
theorem get_coordinate_limits_ok (lower upper span : ℚ) (d : ℤ)
    (t1 t2 lo3 b e0 : ℚ)
    (h1 : fsub64 upper span = some t1)
    (h2 : fmul64 t1 100 = some t2)
    (h3 : fmul64 lower 100 = some lo3)
    (h4 : ¬ pyRoundInt t2 < pyRoundInt lo3)
    (h5 : fdiv64 (d:ℚ) 100 = some b)
    (h6 : fadd64 b span = some e0) :
    get_coordinate_limits lower upper span d = Except.ok (b, pyRound2 e0) := by
  unfold get_coordinate_limits
  rw [h1]
  simp only [toE, Bind.bind, Except.bind]
  rw [h2]
  simp only [toE, Bind.bind, Except.bind]
  rw [h3]
  simp only [toE, Bind.bind, Except.bind]
  rw [if_neg h4, h5]
  simp only [toE, Bind.bind, Except.bind]
  rw [h6]
  simp only [toE, Bind.bind, Except.bind, pure, Except.pure]

/-- `_generate_random_crop_box` on the success path. -/
theorem generate_ok (res : Resolution) (sub : FloatingPointBox) (dx dy : ℤ)
    (p xs ys : ℚ × ℚ)
    (h1 : get_relative_crop_size res = Except.ok p)
    (h2 : get_coordinate_limits sub.left sub.right p.1 dx = Except.ok xs)
    (h3 : get_coordinate_limits sub.top sub.bottom p.2 dy = Except.ok ys) :
    generate_random_crop_box res sub dx dy = Except.ok ⟨xs.1, ys.1, xs.2, ys.2⟩ := by
  unfold generate_random_crop_box
  rw [h1]
  simp only [Bind.bind, Except.bind]
  rw [h2]
  simp only [Bind.bind, Except.bind]
  rw [h3]
  simp only [Bind.bind, Except.bind, pure, Except.pure]

theorem sample_axis (l u k : ℕ) (s : ℚ) (d : ℤ)
    (hu : u ≤ 100) (hk : k ≤ 1000)
    (hs : |s - ((10 + k : ℕ):ℚ)/100| ≤ 2 ^ (-(38:ℤ)))
    (hspan : 10 + k + l ≤ u)
    (hd1 : (randint_bounds (gridQ l) (gridQ u) s).1 ≤ d)
    (hd2 : d ≤ (randint_bounds (gridQ l) (gridQ u) s).2) :
    ∃ b e, get_coordinate_limits (gridQ l) (gridQ u) s d = Except.ok (b, e)
      ∧ gridQ l ≤ b ∧ e ≤ gridQ u ∧ |e - b - s| ≤ 1/100 := by
  have hp53 : (2:ℚ) ^ (-(53:ℤ)) = 1/2^53 := by
    rw [show (-(53:ℤ)) = -((53:ℕ):ℤ) from rfl, pow2_neg_ofNat]
  have hp52 : (2:ℚ) ^ (-(52:ℤ)) = 1/2^52 := by
    rw [show (-(52:ℤ)) = -((52:ℕ):ℤ) from rfl, pow2_neg_ofNat]
  have hp51 : (2:ℚ) ^ (-(51:ℤ)) = 1/2^51 := by
    rw [show (-(51:ℤ)) = -((51:ℕ):ℤ) from rfl, pow2_neg_ofNat]
  have hp46 : (2:ℚ) ^ (-(46:ℤ)) = 1/2^46 := by
    rw [show (-(46:ℤ)) = -((46:ℕ):ℤ) from rfl, pow2_neg_ofNat]
  have hp38 : (2:ℚ) ^ (-(38:ℤ)) = 1/2^38 := by
    rw [show (-(38:ℤ)) = -((38:ℕ):ℤ) from rfl, pow2_neg_ofNat]
  have s53 : (1:ℚ)/2^53 ≤ 1/1000000 := by norm_num
  have s52 : (1:ℚ)/2^52 ≤ 1/1000000 := by norm_num
  have s51 : (1:ℚ)/2^51 ≤ 1/1000000 := by norm_num
  have s46 : (1:ℚ)/2^46 ≤ 1/1000000 := by norm_num
  have s38 : (1:ℚ)/2^38 ≤ 1/1000000 := by norm_num
  have hk90 : k ≤ 90 := by omega
  have hl90 : l ≤ 90 := by omega
  have hc10k : ((10 + k : ℕ):ℚ) = 10 + (k:ℚ) := by push_cast; ring
  have hkQ : (k:ℚ) ≤ 90 := by exact_mod_cast hk90
  have hkQ0 : (0:ℚ) ≤ (k:ℚ) := by positivity
  have huQ : (u:ℚ) ≤ 100 := by exact_mod_cast hu
  have huQ0 : (0:ℚ) ≤ (u:ℚ) := by positivity
  have hlQ : (l:ℚ) ≤ 90 := by exact_mod_cast hl90
  have hlQ0 : (0:ℚ) ≤ (l:ℚ) := by positivity
  rw [hc10k, hp38] at hs
  obtain ⟨s1, s2⟩ := abs_le.1 hs
  obtain ⟨hlsome, hlerr⟩ := gridQ_spec l (by omega)
  obtain ⟨husome, huerr⟩ := gridQ_spec u hu
  generalize hGL : gridQ l = L at hd1 hd2 hlsome hlerr ⊢
  generalize hGU : gridQ u = U at hd1 hd2 husome huerr ⊢
  rw [hp53] at hlerr huerr
  obtain ⟨le1, le2⟩ := abs_le.1 hlerr
  obtain ⟨ue1, ue2⟩ := abs_le.1 huerr
  have h2b : (2:ℚ) ^ ((1:ℕ):ℤ) = 2 := by rw [zpow_natCast]; norm_num
  have h128 : (2:ℚ) ^ ((7:ℕ):ℤ) = 128 := by rw [zpow_natCast]; norm_num
  have h4b : (2:ℚ) ^ ((2:ℕ):ℤ) = 4 := by rw [zpow_natCast]; norm_num
  have h1b : (2:ℚ) ^ ((0:ℕ):ℤ) = 1 := by rw [zpow_natCast]; norm_num
  have hsubB : |U - s| ≤ 2 ^ ((1:ℕ):ℤ) := by
    rw [h2b, abs_le]
    constructor <;> linarith only [ue1, ue2, s1, s2, huQ, huQ0, hkQ, hkQ0, s53, s38]
  obtain ⟨t1, ht1, ht1err, _⟩ := roundF64_close 1 (by norm_num) (U - s) hsubB
  rw [show (((1:ℕ):ℤ) - 53) = (-(52:ℤ)) from by norm_num, hp52] at ht1err
  obtain ⟨a1, a2⟩ := abs_le.1 ht1err
  have hm : ((u - (10 + k) : ℕ):ℚ) = (u:ℚ) - 10 - (k:ℚ) := by
    rw [Nat.cast_sub (show 10 + k ≤ u by omega)]
    push_cast
    ring
  have hprodB : |t1 * 100| ≤ 2 ^ ((7:ℕ):ℤ) := by
    rw [h128, abs_le]
    constructor <;> linarith only [a1, a2, ue1, ue2, s1, s2, huQ, huQ0, hkQ, hkQ0,
      s52, s53, s38]
  obtain ⟨t2, ht2, ht2err, _⟩ := roundF64_close 7 (by norm_num) (t1 * 100) hprodB
  rw [show (((7:ℕ):ℤ) - 53) = (-(46:ℤ)) from by norm_num, hp46] at ht2err
  obtain ⟨c1, c2⟩ := abs_le.1 ht2err
  have hlim : pyRoundInt t2 = ((u - (10 + k) : ℕ):ℤ) := by
    rw [pyRoundInt]
    apply rnEven_eq_of_near
    rw [Int.cast_natCast, hm, abs_lt]
    constructor <;> linarith only [c1, c2, a1, a2, ue1, ue2, s1, s2, s46, s52, s53, s38]
  have hlowB : |L * 100| ≤ 2 ^ ((7:ℕ):ℤ) := by
    rw [h128, abs_le]
    constructor <;> linarith only [le1, le2, hlQ, hlQ0, s53]
  obtain ⟨lo3, hlo3, hlo3err, _⟩ := roundF64_close 7 (by norm_num) (L * 100) hlowB
  rw [show (((7:ℕ):ℤ) - 53) = (-(46:ℤ)) from by norm_num, hp46] at hlo3err
  obtain ⟨f1, f2⟩ := abs_le.1 hlo3err
  have hlo : pyRoundInt lo3 = (l:ℤ) := by
    rw [pyRoundInt]
    apply rnEven_eq_of_near
    rw [Int.cast_natCast, abs_lt]
    constructor <;> linarith only [f1, f2, le1, le2, hlQ, hlQ0, s46, s53]
  have hfsub : fsub64 U s = some t1 := by rw [fsub64, qsub_eq]; exact ht1
  have hfmul : fmul64 t1 100 = some t2 := by rw [fmul64, qmul_eq]; exact ht2
  have hflow : fmul64 L 100 = some lo3 := by rw [fmul64, qmul_eq]; exact hlo3
  have hrb := randint_bounds_eq L U s t1 t2 lo3 hfsub hfmul hflow
  have hd1' : (l:ℤ) ≤ d := by
    have hx := hd1
    rw [hrb] at hx
    simpa [hlo] using hx
  have hd2' : d ≤ ((u - (10 + k) : ℕ):ℤ) := by
    have hx := hd2
    rw [hrb] at hx
    simpa [hlim] using hx
  have hd0 : (0:ℤ) ≤ d := le_trans (by exact_mod_cast Nat.zero_le l) hd1'
  have hd100 : d ≤ 100 :=
    le_trans hd2' (by exact_mod_cast (show u - (10 + k) ≤ 100 by omega))
  have hdQ0 : (0:ℚ) ≤ ((d:ℤ):ℚ) := by exact_mod_cast hd0
  have hdQ100 : ((d:ℤ):ℚ) ≤ 100 := by exact_mod_cast hd100
  have hdlQ : (l:ℚ) ≤ ((d:ℤ):ℚ) := by exact_mod_cast hd1'
  have hdmQ : ((d:ℤ):ℚ) ≤ (u:ℚ) - 10 - (k:ℚ) := by
    have hx : ((d:ℤ):ℚ) ≤ ((u - (10 + k) : ℕ):ℚ) := by exact_mod_cast hd2'
    rw [hm] at hx
    exact hx
  have hdabs : |((d:ℤ):ℚ)/100| ≤ 2 ^ ((0:ℕ):ℤ) := by
    rw [abs_of_nonneg (div_nonneg hdQ0 (by norm_num)), h1b,
      div_le_one (by norm_num : (0:ℚ) < 100)]
    linarith only [hdQ100]
  obtain ⟨b, hb, hberr, _⟩ := roundF64_close 0 (by norm_num) (((d:ℤ):ℚ)/100) hdabs
  rw [show (((0:ℕ):ℤ) - 53) = (-(53:ℤ)) from by norm_num, hp53] at hberr
  obtain ⟨g1, g2⟩ := abs_le.1 hberr
  have hfdiv : fdiv64 ((d:ℤ):ℚ) 100 = some b := by rw [fdiv64, qdiv_eq]; exact hb
  have hbl : L ≤ b := by
    rcases eq_or_lt_of_le hd1' with heq | hlt
    · have harg : ((d:ℤ):ℚ)/100 = (l:ℚ)/100 := by
        rw [← heq]
        push_cast
        ring
      rw [harg] at hb
      exact le_of_eq (Option.some.inj (hlsome.symm.trans hb))
    · have hl1d : (l:ℚ) + 1 ≤ ((d:ℤ):ℚ) := by
        exact_mod_cast Int.lt_iff_add_one_le.mp hlt
      linarith only [g1, g2, le1, le2, hl1d, s53]
  have hsumB : |b + s| ≤ 2 ^ ((2:ℕ):ℤ) := by
    rw [h4b, abs_le]
    constructor <;> linarith only [g1, g2, hdQ0, hdQ100, s1, s2, hkQ, hkQ0, s53, s38]
  obtain ⟨e0, he0, he0err, _⟩ := roundF64_close 2 (by norm_num) (b + s) hsumB
  rw [show (((2:ℕ):ℤ) - 53) = (-(51:ℤ)) from by norm_num, hp51] at he0err
  obtain ⟨j1, j2⟩ := abs_le.1 he0err
  have hfadd : fadd64 b s = some e0 := by rw [fadd64, qadd_eq]; exact he0
  have hguard : ¬ pyRoundInt t2 < pyRoundInt lo3 := by
    rw [hlim, hlo]
    omega
  have hrne : rnEven (qmul e0 100) = d + ((10 + k : ℕ):ℤ) := by
    rw [qmul_eq]
    apply rnEven_eq_of_near
    have hc : (((d + ((10 + k : ℕ):ℤ)):ℤ):ℚ) = ((d:ℤ):ℚ) + 10 + (k:ℚ) := by
      push_cast
      ring
    rw [hc, abs_lt]
    constructor <;> linarith only [j1, j2, g1, g2, s1, s2, s51, s53, s38]
  obtain ⟨dn, hdn⟩ : ∃ dn : ℕ, (dn:ℤ) = d := ⟨d.toNat, Int.toNat_of_nonneg hd0⟩
  have hdnQ : ((dn:ℕ):ℚ) = ((d:ℤ):ℚ) := by exact_mod_cast hdn
  have hm2 : dn + (10 + k) ≤ u := by omega
  have hargeq : qdiv (((d + ((10 + k : ℕ):ℤ)):ℤ):ℚ) 100
      = Rat.divInt ((dn + (10 + k) : ℕ):ℤ) 100 := by
    rw [qdiv_eq, Rat.divInt_eq_div]
    push_cast
    rw [hdnQ]
  have hend : pyRound2 e0 = gridQ (dn + (10 + k)) := by
    rw [pyRound2, hrne, hargeq, gridQ]
  obtain ⟨hm2some, hm2err⟩ := gridQ_spec (dn + (10 + k)) (by omega)
  generalize hGE : gridQ (dn + (10 + k)) = E at hend hm2some hm2err
  rw [hp53] at hm2err
  have hm2cast : ((dn + (10 + k) : ℕ):ℚ) = ((d:ℤ):ℚ) + 10 + (k:ℚ) := by
    push_cast
    rw [hdnQ]
    ring
  rw [hm2cast] at hm2err
  obtain ⟨p1, p2⟩ := abs_le.1 hm2err
  have hend_le : pyRound2 e0 ≤ U := by
    rw [hend]
    rcases eq_or_lt_of_le hm2 with heq | hltu
    · exact le_of_eq (by rw [← hGE, ← hGU, heq])
    · have hx : ((dn + (10 + k) : ℕ):ℚ) + 1 ≤ (u:ℚ) := by exact_mod_cast hltu
      rw [hm2cast] at hx
      linarith only [p1, p2, ue1, ue2, hx, s53]
  have hwidth : |pyRound2 e0 - b - s| ≤ 1/100 := by
    rw [hend, abs_le]
    constructor <;> linarith only [p1, p2, g1, g2, s1, s2, s53, s38]
  exact ⟨b, pyRound2 e0,
    get_coordinate_limits_ok L U s d t1 t2 lo3 b e0
      hfsub hfmul hflow hguard hfdiv hfadd,
    hbl, hend_le, hwidth⟩

/-- C4 (amended): for subtask boxes whose edges are binary64 values of
hundredth-grid decimals `j/100` and whose spans exceed the resolver's stopping
index on each axis, every crop box the sampler can produce (for any draws
within the `randint` ranges the source computes) is contained in the subtask
box, and each side length matches the resolved relative size to within 0.01. -/
theorem c4_sampler_contained (w h xl xu yl yu : ℕ) (dx dy : ℤ)
    (hw : 0 < w) (hh : 0 < h) (hw9 : w ≤ 2 ^ 999) (hh9 : h ≤ 2 ^ 999)
    (hxu : xu ≤ 100) (hyu : yu ≤ 100)
    (hgx : 10 + stopIdx w + xl ≤ xu) (hgy : 10 + stopIdx h + yl ≤ yu)
    (hdx1 : (randint_bounds (gridQ xl) (gridQ xu) (relAccum (stopIdx w))).1 ≤ dx)
    (hdx2 : dx ≤ (randint_bounds (gridQ xl) (gridQ xu) (relAccum (stopIdx w))).2)
    (hdy1 : (randint_bounds (gridQ yl) (gridQ yu) (relAccum (stopIdx h))).1 ≤ dy)
    (hdy2 : dy ≤ (randint_bounds (gridQ yl) (gridQ yu) (relAccum (stopIdx h))).2) :
    ∃ box,
      generate_random_crop_box ⟨w, h⟩ ⟨gridQ xl, gridQ yl, gridQ xu, gridQ yu⟩ dx dy
        = Except.ok box
      ∧ FloatingPointBox.contains ⟨gridQ xl, gridQ yl, gridQ xu, gridQ yu⟩ box = true
      ∧ |box.right - box.left - relAccum (stopIdx w)| ≤ 1/100
      ∧ |box.bottom - box.top - relAccum (stopIdx h)| ≤ 1/100 := by
  obtain ⟨wf, hwf, hwl⟩ := resolver_axis w hw hw9
  obtain ⟨hf2, hhf, hhl⟩ := resolver_axis h hh hh9
  have hres := resolver_ok ⟨w, h⟩ wf hf2 hwf hhf
  rw [hwl, hhl] at hres
  obtain ⟨bx, ex, hxok, hxl, hxu', hxw⟩ :=
    sample_axis xl xu (stopIdx w) (relAccum (stopIdx w)) dx hxu
      (stopIdx_le_1000 w hw) (relAccum_grid_close _ (stopIdx_le_1000 w hw))
      hgx hdx1 hdx2
  obtain ⟨cy, ey, hyok, hyl, hyu', hyw⟩ :=
    sample_axis yl yu (stopIdx h) (relAccum (stopIdx h)) dy hyu
      (stopIdx_le_1000 h hh) (relAccum_grid_close _ (stopIdx_le_1000 h hh))
      hgy hdy1 hdy2
  refine ⟨⟨bx, cy, ex, ey⟩, ?_, ?_, hxw, hyw⟩
  · exact generate_ok ⟨w, h⟩ ⟨gridQ xl, gridQ yl, gridQ xu, gridQ yu⟩ dx dy
      (relAccum (stopIdx w), relAccum (stopIdx h)) (bx, ex) (cy, ey) hres hxok hyok
  · simp only [FloatingPointBox.contains, Bool.and_eq_true, decide_eq_true_eq,
      ge_iff_le]
    exact ⟨⟨⟨hxl, hxu'⟩, hyl⟩, hyu'⟩

/-- Witness for C4: resolution 100 by 100 (resolved index 0 on both axes),
the full-image grid subtask box, and the mid-range draws 50 and 0. -/
theorem c4_sampler_contained_witness :
    (0 < (100:ℕ) ∧ (100:ℕ) ≤ 2 ^ 999 ∧ (100:ℕ) ≤ 100
      ∧ 10 + stopIdx 100 + 0 ≤ 100
      ∧ (randint_bounds (gridQ 0) (gridQ 100) (relAccum (stopIdx 100))).1 ≤ 50
      ∧ (50:ℤ) ≤ (randint_bounds (gridQ 0) (gridQ 100) (relAccum (stopIdx 100))).2
      ∧ (randint_bounds (gridQ 0) (gridQ 100) (relAccum (stopIdx 100))).1 ≤ 0
      ∧ (0:ℤ) ≤ (randint_bounds (gridQ 0) (gridQ 100) (relAccum (stopIdx 100))).2)
    ∧ ∃ box,
      generate_random_crop_box ⟨100, 100⟩ ⟨gridQ 0, gridQ 0, gridQ 100, gridQ 100⟩ 50 0
        = Except.ok box
      ∧ FloatingPointBox.contains ⟨gridQ 0, gridQ 0, gridQ 100, gridQ 100⟩ box = true
      ∧ |box.right - box.left - relAccum (stopIdx 100)| ≤ 1/100
      ∧ |box.bottom - box.top - relAccum (stopIdx 100)| ≤ 1/100 :=
  ⟨⟨by decide, by norm_num, by decide, by decide, by decide, by decide, by decide,
    by decide⟩,
   c4_sampler_contained 100 100 0 100 0 100 50 0 (by decide) (by decide)
     (by norm_num) (by norm_num) (by decide) (by decide) (by decide) (by decide)
     (by decide) (by decide) (by decide) (by decide)⟩

/-- Counterexample for C4 as stated: for the subtask box `subC4` (spans well
above the resolved minimum sizes) the draw `dx = 10` lies inside the range the
source passes to `randint`, yet the resulting crop box starts at `0.10`,
left of the subtask's left edge `0.105`: round-half-even pulls the lower
percent bound below the edge, and containment fails. -/
theorem c4_counterexample :
    ∃ s box,
      get_relative_crop_size ⟨100, 100⟩ = Except.ok (s, s)
      ∧ s ≤ subC4.right - subC4.left ∧ s ≤ subC4.bottom - subC4.top
      ∧ (randint_bounds subC4.left subC4.right s).1 ≤ 10
      ∧ (10:ℤ) ≤ (randint_bounds subC4.left subC4.right s).2
      ∧ (randint_bounds subC4.top subC4.bottom s).1 ≤ 0
      ∧ (0:ℤ) ≤ (randint_bounds subC4.top subC4.bottom s).2
      ∧ generate_random_crop_box ⟨100, 100⟩ subC4 10 0 = Except.ok box
      ∧ FloatingPointBox.contains subC4 box = false := by
  refine ⟨CROP_RELATIVE_SIZE,
    ⟨Rat.divInt 3602879701896397 36028797018963968, 0,
     Rat.divInt 3602879701896397 18014398509481984,
     Rat.divInt 3602879701896397 36028797018963968⟩,
    by rfl, ?_, ?_, by decide, by decide, by decide, by decide, by rfl, by decide⟩
  · have e1 : subC4.right = Rat.divInt 1 2 := by decide
    have e2 : subC4.left = Rat.divInt 7566047373982433 72057594037927936 := by decide
    have e3 : CROP_RELATIVE_SIZE = Rat.divInt 3602879701896397 36028797018963968 := by
      decide
    rw [e1, e2, e3, Rat.divInt_eq_div, Rat.divInt_eq_div, Rat.divInt_eq_div]
    norm_num
  · have e3 : CROP_RELATIVE_SIZE = Rat.divInt 3602879701896397 36028797018963968 := by
      decide
    have e4 : subC4.bottom = 1 := rfl
    have e5 : subC4.top = 0 := rfl
    rw [e3, e4, e5, Rat.divInt_eq_div]
    norm_num
